import Mathlib

set_option linter.unusedVariables false

/-!
Shallow embedding of `scripts/bootstrap_template.py` (with its helper module
`scripts/bootstrap_template_helpers.py`): the checkpoint/rollback mechanism
for the template-bootstrapping script, and the pure value-collection logic.

Modelling conventions:
* Every path is repository-root-relative and represented as a `List String`
  of components (`ROOT / "a" / "b"` becomes `["a", "b"]`), so the
  `relative_to(ROOT)` conversions in the source are identities here.
* The filesystem is a finite association list from paths to text-file
  contents plus a list of existing directories.  `FPath.write_text`
  overwrites/creates an entry; `FPath.rename` on a directory re-prefixes
  every path in its subtree; `shutil.rmtree` filters the subtree out.
* The checkpoint file `.bootstrap-state.json` is modelled as a dedicated
  `checkpoint : Option Manifest` slot of the system state (the JSON
  round-trip through `json.dumps`/`json.loads` is the identity on the
  structured payload, so it is elided).
* `path.exists() and path.is_file()` on a text file is exactly "the file
  association list has an entry for the path", so the guarded
  `read_text` calls are modelled by matching on the lookup result.
* Python dicts preserve insertion order; they are modelled as association
  lists with the same append-at-first-insertion discipline.
-/

/-- A repository-root-relative path, as a list of components. -/
abbrev FPath := List String

/-- Association-list lookup (first binding wins), used for Python dicts. -/
def lookupA {α β : Type} [DecidableEq α] (a : α) : List (α × β) → Option β
  | [] => none
  | e :: rest => if e.1 = a then some e.2 else lookupA a rest

/-- Association-list update: overwrite the first binding of `a`, else append. -/
def setA {α β : Type} [DecidableEq α] (a : α) (b : β) : List (α × β) → List (α × β)
  | [] => [(a, b)]
  | e :: rest => if e.1 = a then (a, b) :: rest else e :: setA a b rest

/-- Boolean list membership via decidable equality. -/
def memP {α : Type} [DecidableEq α] (a : α) : List α → Bool
  | [] => false
  | x :: rest => if x = a then true else memP a rest

/-- Boolean path-prefix test (component-wise). -/
def isPre : FPath → FPath → Bool
  | [], _ => true
  | _ :: _, [] => false
  | a :: xs, b :: ys => if a = b then isPre xs ys else false

/-- Fuel-driven decimal digit expansion (structural, so the kernel can
evaluate it); `fuel` only needs to exceed the number of digits. -/
def decDigitsAux : Nat → Nat → List Char
  | 0, _ => []
  | fuel + 1, n =>
    if n < 10 then [Nat.digitChar n]
    else decDigitsAux fuel (n / 10) ++ [Nat.digitChar (n % 10)]

/-- Decimal digit list of a natural number (no leading zeros), the model of
Python's `str(n)` for the zero-padded backup file names. -/
def decDigits (n : Nat) : List Char := decDigitsAux (n + 1) n

/-- Numeric value of a decimal digit character. -/
def decVal (c : Char) : Nat := c.toNat - 48

/-- Decimal decoding of a character list (tolerates leading zeros). -/
def decNum (cs : List Char) : Nat := cs.foldl (fun a c => a * 10 + decVal c) 0

/-- `f"{k:04d}.txt"`: the name of the `k`-th backup file. -/
def backupFileName (k : Nat) : String :=
  String.mk (List.replicate (4 - (decDigits k).length) '0' ++ decDigits k ++ ".txt".data)

/-- `STATE_BACKUP_DIR = ROOT / ".bootstrap-state-backups"`, root-relative. -/
def backupDirName : String := ".bootstrap-state-backups"

/-- The backup directory as a path. -/
def backupDir : FPath := [backupDirName]

/-- Root-relative path of the `k`-th backup file inside `STATE_BACKUP_DIR`. -/
def backupPathOf (k : Nat) : FPath := [backupDirName, backupFileName k]

/-- `src / TEMPLATE_IMPORT_NAME`: the template package directory. -/
def tplDir : FPath := ["src", "py_template"]

/-- The root-relative path of `uv.lock`. -/
def uvLockPath : FPath := ["uv.lock"]

/-- The filesystem model: text files (path, content) and existing dirs. -/
structure FS where
  files : List (FPath × String)
  dirs : List FPath
deriving DecidableEq

/-- Content of the text file at `p`, if `p` is an existing regular file. -/
def FS.readFile (fs : FS) (p : FPath) : Option String := lookupA p fs.files

/-- `p.exists() and p.is_file()` for text files. -/
def FS.isFile (fs : FS) (p : FPath) : Bool := (fs.readFile p).isSome

/-- `p.is_dir()`-style existence of a directory. -/
def FS.isDir (fs : FS) (p : FPath) : Bool := memP p fs.dirs

/-- `p.exists()`: either a file or a directory is at `p`. -/
def FS.pathExists (fs : FS) (p : FPath) : Bool := fs.isFile p || fs.isDir p

/-- `p.write_text(c)`: overwrite or create the file at `p`. -/
def FS.writeFile (fs : FS) (p : FPath) (c : String) : FS :=
  { fs with files := setA p c fs.files }

/-- All nonempty prefixes of a path (the chain of directories it names). -/
def prefixesOf (d : FPath) : List FPath :=
  (List.range d.length).map (fun i => d.take (i + 1))

/-- `d.mkdir(parents=True, exist_ok=True)`: add the missing dirs of the chain. -/
def FS.mkdirp (fs : FS) (d : FPath) : FS :=
  { fs with dirs := fs.dirs ++ (prefixesOf d).filter (fun q => !(memP q fs.dirs)) }

/-- Where `src.rename(dst)` sends an individual path of the subtree. -/
def renamePath (src dst p : FPath) : FPath :=
  if isPre src p then dst ++ p.drop src.length else p

/-- `src.rename(dst)`: move the whole subtree rooted at `src` to `dst`. -/
def FS.renameDir (fs : FS) (src dst : FPath) : FS :=
  ⟨fs.files.map (fun e => (renamePath src dst e.1, e.2)),
   fs.dirs.map (renamePath src dst)⟩

/-- The structured content of `.bootstrap-state.json` (`checkpoint_payload`):
`files` holds `(path, backup)` records, `renames` holds `(old, new)` records. -/
structure Manifest where
  files : List (FPath × FPath)
  renames : List (FPath × FPath)
deriving DecidableEq

/-- System state: the working tree plus the durable checkpoint slot
(`.bootstrap-state.json`; `none` means the file does not exist). -/
structure Sys where
  fs : FS
  checkpoint : Option Manifest
deriving DecidableEq

/-- `RollbackState` of the script: in-memory originals, the recorded
directory renames, and the recorded backup-file locations. -/
structure RollbackState where
  original_files : List (FPath × String)
  renamed_dirs : List (FPath × FPath)
  backup_files : List (FPath × FPath)
deriving DecidableEq

/-- `RollbackState()`: all collections start empty. -/
def initRollbackState : RollbackState := ⟨[], [], []⟩

/-- `checkpoint_payload(state)` (paths are already root-relative here). -/
def checkpoint_payload (state : RollbackState) : Manifest :=
  ⟨state.backup_files, state.renamed_dirs⟩

/-- `write_checkpoint(state)`: ensure the backup dir exists and rewrite the
checkpoint file with the payload of the full current rollback state. -/
def write_checkpoint (state : RollbackState) (sys : Sys) : Sys :=
  { fs := sys.fs.mkdirp backupDir, checkpoint := some (checkpoint_payload state) }

/-- `p` lies strictly inside the directory `d`. -/
def strictUnderB (d p : FPath) : Bool := isPre d p && !(decide (p = d))

/-- `cleanup_checkpoint()`: `STATE_PATH.unlink(missing_ok=True)` plus
`shutil.rmtree(STATE_BACKUP_DIR, ignore_errors=True)`. -/
def cleanup_checkpoint (sys : Sys) : Sys :=
  { fs := ⟨sys.fs.files.filter (fun e => !(strictUnderB backupDir e.1)),
           sys.fs.dirs.filter (fun q => !(isPre backupDir q))⟩,
    checkpoint := none }

/-- One iteration of the rename-undo loops of `rollback_changes` /
`recover_from_checkpoint`: `if new.exists() and not old.exists():
new.rename(old)` for a record `r = (old, new)`. -/
def undoRenameStep (fs : FS) (r : FPath × FPath) : FS :=
  if fs.pathExists r.2 && !(fs.pathExists r.1) then fs.renameDir r.2 r.1 else fs

/-- One iteration of the restore loop of `rollback_changes`:
`path.parent.mkdir(parents=True, exist_ok=True); path.write_text(original)`. -/
def restoreStep (fs : FS) (e : FPath × String) : FS :=
  (fs.mkdirp e.1.dropLast).writeFile e.1 e.2

/-- One iteration of the restore loop of `recover_from_checkpoint`:
skip the record if its backup file is missing, otherwise write the backup's
content to the target path (creating parent directories). -/
def recoverRestoreStep (fs : FS) (e : FPath × FPath) : FS :=
  match fs.readFile e.2 with
  | none => fs
  | some c => (fs.mkdirp e.1.dropLast).writeFile e.1 c

/-- The whole restore loop of `recover_from_checkpoint`. -/
def recoverRestorePhase (fs : FS) (entries : List (FPath × FPath)) : FS :=
  entries.foldl recoverRestoreStep fs

/-- `rollback_changes(state)` (the `print` calls carry no state). -/
def rollback_changes (state : RollbackState) (sys : Sys) : Sys :=
  if state.original_files = [] ∧ state.renamed_dirs = [] then cleanup_checkpoint sys
  else
    let fs1 := state.renamed_dirs.reverse.foldl undoRenameStep sys.fs
    let fs2 := state.original_files.foldl restoreStep fs1
    cleanup_checkpoint { sys with fs := fs2 }

/-- `recover_from_checkpoint()`: replay a pre-existing manifest (renames
newest-first, then file restores from backups), then delete it. -/
def recover_from_checkpoint (sys : Sys) : Sys :=
  match sys.checkpoint with
  | none => sys
  | some data =>
    let fs1 := data.renames.reverse.foldl undoRenameStep sys.fs
    let fs2 := recoverRestorePhase fs1 data.files
    cleanup_checkpoint { fs := fs2, checkpoint := sys.checkpoint }

/-- `backup_text_file(path, state)`. -/
def backup_text_file (p : FPath) (s : RollbackState × Sys) : RollbackState × Sys :=
  if (lookupA p s.1.original_files).isSome then s
  else
    match s.2.fs.readFile p with
    | none => s
    | some original =>
      let st1 : RollbackState :=
        { s.1 with original_files := s.1.original_files ++ [(p, original)] }
      let bp : FPath := backupPathOf s.1.backup_files.length
      let fs1 := (s.2.fs.mkdirp backupDir).writeFile bp original
      let st2 : RollbackState :=
        { st1 with backup_files := st1.backup_files ++ [(p, bp)] }
      (st2, write_checkpoint st2 { s.2 with fs := fs1 })

/-- `rename_package_dir(import_name, state)`; the `RuntimeError` raised when
the target already exists becomes `Except.error`. -/
def rename_package_dir (import_name : String) (s : RollbackState × Sys) :
    Except String (RollbackState × Sys) :=
  let old_dir : FPath := ["src", "py_template"]
  let new_dir : FPath := ["src", import_name]
  if !(s.2.fs.pathExists old_dir) || decide (old_dir = new_dir) then .ok s
  else if s.2.fs.pathExists new_dir then
    .error ("Target package path already exists: src/" ++ import_name)
  else
    let fs1 := s.2.fs.renameDir old_dir new_dir
    let st1 : RollbackState :=
      { s.1 with renamed_dirs := s.1.renamed_dirs ++ [(old_dir, new_dir)] }
    .ok (st1, write_checkpoint st1 { s.2 with fs := fs1 })

/-- One mutation-phase step of `main` as observed by the rollback machinery:
`backupEv p` is a bare `backup_text_file` call (the `uv.lock` pattern);
`mutateEv p c` is the `backup_text_file(path, state); path.write_text(c)`
pattern of `replace_placeholders` / `update_pyproject`, applied only to an
existing file (both call sites have read the file first); `renameEv` is
`rename_package_dir`; `failEv` is any other exception raised mid-phase. -/
inductive Event where
  | backupEv (p : FPath)
  | mutateEv (p : FPath) (c : String)
  | renameEv (import_name : String)
  | failEv
deriving DecidableEq

/-- Whether an event is a `rename_package_dir` call. -/
def isRenameEv : Event → Bool
  | .renameEv _ => true
  | _ => false

/-- Execute one event; the boolean is `true` when the event raised. -/
def execEvent (e : Event) (s : RollbackState × Sys) : (RollbackState × Sys) × Bool :=
  match e with
  | .backupEv p => (backup_text_file p s, false)
  | .mutateEv p c =>
    if s.2.fs.isFile p then
      let s1 := backup_text_file p s
      ((s1.1, { s1.2 with fs := s1.2.fs.writeFile p c }), false)
    else (s, false)
  | .renameEv n =>
    match rename_package_dir n s with
    | .ok s1 => (s1, false)
    | .error _ => (s, true)
  | .failEv => (s, true)

/-- Execute the mutation phase; stops at the first raised exception. -/
def execEvents : List Event → (RollbackState × Sys) → (RollbackState × Sys) × Bool
  | [], s => (s, false)
  | e :: rest, s =>
    match execEvent e s with
    | (s1, true) => (s1, true)
    | (s1, false) => execEvents rest s1

/-- The paths the script actually mutates (git-tracked files, `uv.lock`,
`pyproject.toml`) never live inside the script's own state-backup directory. -/
def eventWF : Event → Bool
  | .backupEv p => !(isPre backupDir p)
  | .mutateEv p _ => !(isPre backupDir p)
  | _ => true

/-- Well-formedness of a run: no mutated path inside `STATE_BACKUP_DIR`. -/
def eventsWF (events : List Event) : Bool := events.all eventWF

/-- Outcome of `main`: normal return or a propagated exception, with the
final system state in either case. -/
inductive RunResult where
  | ok (sys : Sys)
  | failed (sys : Sys)
deriving DecidableEq

/-- The body of `main` after `recover_from_checkpoint()`: run the mutation
phase, back up `uv.lock` and run `verify()` unless `--no-verify`, and on any
exception roll back unless `--keep-changes-on-failure` (in which case only
`cleanup_checkpoint()` runs) while the exception propagates.  `verifyOk`
models the exit status of the external verification pipeline; the
success-path deletion of the bootstrap artifacts is glue and is elided. -/
def mainBody (events : List Event) (verifyOk noVerify keepChangesOnFailure : Bool)
    (sys : Sys) : RunResult :=
  let r := execEvents events (initRollbackState, sys)
  if r.2 then
    if keepChangesOnFailure then .failed (cleanup_checkpoint r.1.2)
    else .failed (rollback_changes r.1.1 r.1.2)
  else if noVerify then .ok (cleanup_checkpoint r.1.2)
  else
    let s2 := backup_text_file uvLockPath r.1
    if verifyOk then .ok (cleanup_checkpoint s2.2)
    else if keepChangesOnFailure then .failed (cleanup_checkpoint s2.2)
    else .failed (rollback_changes s2.1 s2.2)

/-- `main()`: `recover_from_checkpoint()` runs first, before any new work. -/
def runMain (events : List Event) (verifyOk noVerify keepChangesOnFailure : Bool)
    (sys0 : Sys) : RunResult :=
  mainBody events verifyOk noVerify keepChangesOnFailure (recover_from_checkpoint sys0)

/-- Spec-side phrasing of "reverse the recorded renames in last-in-first-out
order": the newest record is undone first, the oldest last. -/
def undoRenamesNewestFirst (l : List (FPath × FPath)) (fs : FS) : FS :=
  l.foldr (fun r acc => undoRenameStep acc r) fs

/-!  The pure value-collection logic (`collect_values` and friends). -/

/-- `TEMPLATE_DIST_NAME`. -/
def TEMPLATE_DIST_NAME : String := "py-template"

/-- `DEFAULT_PYTHON_RANGE`. -/
def DEFAULT_PYTHON_RANGE : String := ">=3.11"

/-- `dist_to_import_name`: `re.sub(r"[-.]", "_", dist_name)` replaces each
`-` or `.` character with `_`. -/
def dist_to_import_name (s : String) : String :=
  String.mk (s.data.map (fun c => if c = '-' ∨ c = '.' then '_' else c))

/-- `GitOrigin` as produced by the helper module. -/
structure GitOriginM where
  raw_url : String
  repository_url : Option String
  repo_name : Option String
deriving DecidableEq

/-- The `argparse.Namespace` fields `collect_values` reads (absent = `None`). -/
structure ArgsM where
  package_name : Option String
  import_name : Option String
  description : Option String
  author_name : Option String
  author_email : Option String
  repository_url : Option String
  issues_url : Option String
  python_range : Option String
deriving DecidableEq

/-- The external collaborators of `collect_values`: `project_defaults()` (the
string keys of `[project]`), `git_origin()`, `git_config_value(...)`, whether
stdin is a tty, and the operator's successive raw `input()` answers. -/
structure CVEnv where
  defaults : List (String × String)
  origin : Option GitOriginM
  git_user_name : Option String
  git_user_email : Option String
  interactive : Bool
  answers : List String
deriving DecidableEq

/-- `BootstrapValues`. -/
structure BootstrapValues where
  dist_name : String
  import_name : String
  description : String
  author_name : String
  author_email : String
  repository_url : String
  issues_url : String
  python_range : String
deriving DecidableEq

/-- Python `a or b` on strings (empty string is falsy). -/
def pyOr (a b : String) : String := if a = "" then b else a

/-- Python `a or b` with `a : str | None`, producing a string. -/
def pyOrO (a : Option String) (b : String) : String :=
  match a with
  | none => b
  | some s => pyOr s b

/-- `prompt(message, default)`: strip the next raw answer, fall back to the
default when it is empty; consumes one answer (the message is display-only). -/
def doPrompt (default : String) (answers : List String) : String × List String :=
  let raw := (answers.headD "").trim
  ((if raw = "" then default else raw), answers.tail)

/-- `value or prompt(...)`: the prompt is only evaluated (and an answer only
consumed) when `value` is falsy, mirroring Python's short-circuit `or`. -/
def porPrompt (a : Option String) (default : String) (answers : List String) :
    String × List String :=
  match a with
  | none => doPrompt default answers
  | some s => if s = "" then doPrompt default answers else (s, answers)

/-- `s.rstrip('/')`. -/
def rstripSlash (s : String) : String :=
  String.mk ((s.data.reverse.dropWhile (fun c => c = '/')).reverse)

/-- `origin.repo_name if origin else None`. -/
def originRepoName (o : Option GitOriginM) : Option String :=
  match o with
  | none => none
  | some g => g.repo_name

/-- `origin.repository_url if origin else None`. -/
def originRepoUrl (o : Option GitOriginM) : Option String :=
  match o with
  | none => none
  | some g => g.repository_url

/-- `collect_values(args)`; the `RuntimeError` for a missing distribution
name becomes `Except.error`. -/
def collect_values (env : CVEnv) (args : ArgsM) : Except String BootstrapValues :=
  let inferred_name : Option String := originRepoName env.origin
  let inferred_repo_url : Option String := originRepoUrl env.origin
  let project_name := (lookupA "name" env.defaults).getD TEMPLATE_DIST_NAME
  let project_name_fallback := if project_name = TEMPLATE_DIST_NAME then "" else project_name
  let inferred_dist_name := pyOrO args.package_name (pyOrO inferred_name project_name_fallback)
  let default_import :=
    pyOrO args.import_name
      (if inferred_dist_name ≠ "" then dist_to_import_name inferred_dist_name else "")
  let default_description := pyOrO args.description ((lookupA "description" env.defaults).getD "")
  let default_python :=
    pyOrO args.python_range ((lookupA "requires-python" env.defaults).getD DEFAULT_PYTHON_RANGE)
  let default_repo := pyOrO args.repository_url (pyOrO inferred_repo_url "")
  let default_author_name := pyOrO args.author_name (pyOrO env.git_user_name "")
  let default_author_email := pyOrO args.author_email (pyOrO env.git_user_email "")
  let interactive := env.interactive
  let vals :=
    if interactive then
      let r1 := porPrompt args.package_name "" env.answers
      let dist_name := if r1.1 = "" then inferred_dist_name else r1.1
      let r2 := porPrompt args.import_name "" r1.2
      let import_name :=
        if r2.1 = "" then
          (if dist_name ≠ "" then dist_to_import_name dist_name else default_import)
        else r2.1
      let r3 := doPrompt default_description r2.2
      let r4 := doPrompt default_author_name r3.2
      let r5 := doPrompt default_author_email r4.2
      let r6 := doPrompt default_repo r5.2
      let issues_default :=
        pyOrO args.issues_url
          (if r6.1 ≠ "" then rstripSlash r6.1 ++ "/issues" else "")
      let r7 := doPrompt issues_default r6.2
      let r8 := doPrompt default_python r7.2
      (⟨dist_name, import_name, r3.1, r4.1, r5.1, r6.1, r7.1, r8.1⟩ : BootstrapValues)
    else
      let issues_url :=
        pyOrO args.issues_url
          (if default_repo ≠ "" then rstripSlash default_repo ++ "/issues" else "")
      (⟨inferred_dist_name, default_import, default_description, default_author_name,
        default_author_email, default_repo, issues_url, default_python⟩ : BootstrapValues)
  if vals.dist_name = "" ∧ interactive = false then
    .error "Could not infer distribution name. Pass package_name or set git origin remote."
  else
    .ok vals

/-!  Run invariants used by the round-trip proofs. -/

/-- Structural invariant of every reachable `(state, sys)` of a run started
from `initRollbackState`: backup records and original records track the same
keys, each path is recorded at most once, and at most one directory rename
(of the fixed template directory) can ever be recorded, after which the
template directory is gone and its target exists. -/
structure InvB (s : RollbackState × Sys) : Prop where
  keysEq : s.1.backup_files.map Prod.fst = s.1.original_files.map Prod.fst
  keysNd : (s.1.original_files.map Prod.fst).Nodup
  ren : s.1.renamed_dirs = [] ∨
    ∃ name, name ≠ "py_template" ∧ s.1.renamed_dirs = [(tplDir, ["src", name])] ∧
      s.2.fs.pathExists tplDir = false ∧ s.2.fs.pathExists ["src", name] = true

/-- Content invariant of a well-formed run: the `k`-th backup file holds the
`k`-th recorded original, recorded paths live outside the backup directory,
and (as soon as any record exists) the durable checkpoint is exactly the
payload of the current rollback state. -/
structure InvC (s : RollbackState × Sys) : Prop where
  bPaths : s.1.backup_files.map Prod.snd
    = (List.range s.1.backup_files.length).map backupPathOf
  reads : s.1.backup_files.map (fun e => (e.1, s.2.fs.readFile e.2))
    = s.1.original_files.map (fun e => (e.1, some e.2))
  keysSep : ∀ e ∈ s.1.original_files, isPre backupDir e.1 = false
  ckpt : (s.1.original_files = [] ∧ s.1.renamed_dirs = []) ∨
    s.2.checkpoint = some (checkpoint_payload s.1)

/-- In a rename-free well-formed run, unrecorded paths still hold their
initial content, and every recorded original is the initial content. -/
def InvO (sys0 : Sys) (s : RollbackState × Sys) : Prop :=
  (∀ p : FPath, isPre backupDir p = false → lookupA p s.1.original_files = none →
    s.2.fs.readFile p = sys0.fs.readFile p) ∧
  (∀ e ∈ s.1.original_files, sys0.fs.readFile e.1 = some e.2)

/-!  Basic lemmas about the association-list and path helpers. -/

theorem lookupA_eq_none_iff {α β : Type} [DecidableEq α] (a : α) (l : List (α × β)) :
    lookupA a l = none ↔ a ∉ l.map Prod.fst := by
  induction l with
  | nil => simp [lookupA]
  | cons e rest ih =>
    by_cases h : e.1 = a
    · simp [lookupA, h]
    · simp [lookupA, h, ih, Ne.symm h]

theorem mem_of_lookupA {α β : Type} [DecidableEq α] {a : α} {b : β} {l : List (α × β)}
    (h : lookupA a l = some b) : (a, b) ∈ l := by
  induction l with
  | nil => simp [lookupA] at h
  | cons e rest ih =>
    by_cases he : e.1 = a
    · simp only [lookupA, he, if_true, Option.some.injEq] at h
      refine List.mem_cons.mpr (Or.inl ?_)
      cases e
      simp only [] at he h
      simp [← he, ← h]
    · simp only [lookupA, he, if_false] at h
      exact List.mem_cons_of_mem _ (ih h)

theorem lookupA_isSome_iff {α β : Type} [DecidableEq α] (a : α) (l : List (α × β)) :
    (lookupA a l).isSome = true ↔ a ∈ l.map Prod.fst := by
  cases h : lookupA a l with
  | none =>
    have := (lookupA_eq_none_iff a l).mp h
    simp [this]
  | some b =>
    have hm : a ∈ l.map Prod.fst := List.mem_map.mpr ⟨(a, b), mem_of_lookupA h, rfl⟩
    simp [hm]

theorem lookupA_append_left {α β : Type} [DecidableEq α] (a : α) (l₁ l₂ : List (α × β))
    (h : lookupA a l₁ = none) : lookupA a (l₁ ++ l₂) = lookupA a l₂ := by
  induction l₁ with
  | nil => rfl
  | cons e rest ih =>
    by_cases he : e.1 = a
    · simp [lookupA, he] at h
    · have hh : lookupA a rest = none := by simpa [lookupA, he] using h
      show lookupA a (e :: (rest ++ l₂)) = lookupA a l₂
      simp only [lookupA, he, if_false]
      exact ih hh

theorem lookupA_append_keep {α β : Type} [DecidableEq α] (a : α) (l₁ l₂ : List (α × β))
    (b : β) (h : lookupA a l₁ = some b) : lookupA a (l₁ ++ l₂) = some b := by
  induction l₁ with
  | nil => simp [lookupA] at h
  | cons e rest ih =>
    by_cases he : e.1 = a
    · simp only [lookupA, he, if_true] at h
      simp [lookupA, he, h]
    · simp only [lookupA, he, if_false] at h ⊢
      exact ih h

theorem lookupA_setA_self {α β : Type} [DecidableEq α] (a : α) (b : β) (l : List (α × β)) :
    lookupA a (setA a b l) = some b := by
  induction l with
  | nil => simp [setA, lookupA]
  | cons e rest ih =>
    by_cases he : e.1 = a
    · simp [setA, he, lookupA]
    · simp [setA, he, lookupA, ih]

theorem lookupA_setA_ne {α β : Type} [DecidableEq α] (a a' : α) (b : β) (l : List (α × β))
    (h : a' ≠ a) : lookupA a' (setA a b l) = lookupA a' l := by
  induction l with
  | nil => simp [setA, lookupA, Ne.symm h]
  | cons e rest ih =>
    by_cases he : e.1 = a
    · simp [setA, he, lookupA, Ne.symm h]
    · simp only [setA, he, if_false, lookupA]
      by_cases he2 : e.1 = a'
      · simp [he2]
      · simp [he2, ih]

theorem memP_iff_mem {α : Type} [DecidableEq α] (a : α) (l : List α) :
    memP a l = true ↔ a ∈ l := by
  induction l with
  | nil => simp [memP]
  | cons x rest ih =>
    by_cases hx : x = a
    · simp [memP, hx]
    · simp [memP, hx, ih, Ne.symm hx]

theorem memP_append {α : Type} [DecidableEq α] (a : α) (l₁ l₂ : List α) :
    memP a (l₁ ++ l₂) = (memP a l₁ || memP a l₂) := by
  induction l₁ with
  | nil => simp [memP]
  | cons x rest ih =>
    by_cases hx : x = a
    · simp [memP, hx]
    · simp [memP, hx, ih]

theorem lookupA_filter_of_key {α β : Type} [DecidableEq α] (a : α) (f : α × β → Bool)
    (l : List (α × β)) (hf : ∀ b, f (a, b) = true) :
    lookupA a (l.filter f) = lookupA a l := by
  induction l with
  | nil => simp
  | cons e rest ih =>
    by_cases he : e.1 = a
    · have : f e = true := by
        have he2 : e = (a, e.2) := by
          rw [← he]
      
        rw [he2]; exact hf e.2
      simp [List.filter, this, lookupA, he, ih]
    · by_cases hfe : f e = true
      · simp [List.filter, hfe, lookupA, he, ih]
      · simp only [Bool.not_eq_true] at hfe
        simp [List.filter, hfe, lookupA, he, ih]

theorem memP_filter_of_true {α : Type} [DecidableEq α] (a : α) (f : α → Bool)
    (l : List α) (hf : f a = true) : memP a (l.filter f) = memP a l := by
  induction l with
  | nil => simp
  | cons x rest ih =>
    by_cases hx : x = a
    · subst hx; simp [List.filter, hf, memP, ih]
    · by_cases hfx : f x = true
      · simp [List.filter, hfx, memP, hx, ih]
      · simp only [Bool.not_eq_true] at hfx
        simp [List.filter, hfx, memP, hx, ih]

theorem memP_filter_of_false {α : Type} [DecidableEq α] (a : α) (f : α → Bool)
    (l : List α) (hf : f a = false) : memP a (l.filter f) = false := by
  induction l with
  | nil => simp [memP]
  | cons x rest ih =>
    by_cases hx : x = a
    · subst hx; simp [List.filter, hf, ih]
    · by_cases hfx : f x = true
      · simp [List.filter, hfx, memP, hx, ih]
      · simp only [Bool.not_eq_true] at hfx
        simp [List.filter, hfx, memP, hx, ih]

/-!  Lemmas about `isPre` and the backup file names. -/

theorem isPre_refl (p : FPath) : isPre p p = true := by
  induction p with
  | nil => rfl
  | cons a xs ih => simp [isPre, ih]

theorem isPre_append (d t : FPath) : isPre d (d ++ t) = true := by
  induction d with
  | nil => rfl
  | cons a xs ih => simp [isPre, ih]

theorem isPre_cons_ne {a b : String} (xs ys : FPath) (h : a ≠ b) :
    isPre (a :: xs) (b :: ys) = false := by
  simp [isPre, h]

theorem decVal_digitChar : ∀ k, k < 10 → decVal (Nat.digitChar k) = k := by decide

theorem decNum_append_digit (xs : List Char) (c : Char) :
    decNum (xs ++ [c]) = decNum xs * 10 + decVal c := by
  simp [decNum, List.foldl_append]

theorem decNum_decDigitsAux : ∀ fuel n, n < fuel → decNum (decDigitsAux fuel n) = n := by
  intro fuel
  induction fuel with
  | zero => intro n h; omega
  | succ fuel ih =>
    intro n h
    by_cases h10 : n < 10
    · simp only [decDigitsAux, h10, if_true]
      simp [decNum, decVal_digitChar n h10]
    · have hdiv : n / 10 < fuel := by
        have : n / 10 < n := Nat.div_lt_self (by omega) (by omega)
        omega
      simp only [decDigitsAux, h10, if_false]
      rw [decNum_append_digit, ih _ hdiv, decVal_digitChar _ (Nat.mod_lt _ (by omega))]
      omega

theorem decNum_decDigits (n : Nat) : decNum (decDigits n) = n :=
  decNum_decDigitsAux (n + 1) n (Nat.lt_succ_self n)

theorem foldl_decNum_zeros : ∀ k : Nat,
    List.foldl (fun a c => a * 10 + decVal c) 0 (List.replicate k '0') = 0 := by
  intro k
  induction k with
  | zero => rfl
  | succ k ih =>
    have h0 : (0 : Nat) * 10 + decVal '0' = 0 := by decide
    simp only [List.replicate_succ, List.foldl_cons, h0]
    exact ih

theorem decNum_replicate_zeros (k : Nat) (ds : List Char) :
    decNum (List.replicate k '0' ++ ds) = decNum ds := by
  simp [decNum, List.foldl_append, foldl_decNum_zeros]

theorem backupFileName_inj {k m : Nat} (h : backupFileName k = backupFileName m) : k = m := by
  have hdata : (List.replicate (4 - (decDigits k).length) '0' ++ decDigits k) ++ ".txt".data
      = (List.replicate (4 - (decDigits m).length) '0' ++ decDigits m) ++ ".txt".data := by
    have h2 := congrArg String.data h
    simp only [backupFileName] at h2
    simpa [List.append_assoc] using h2
  have h3 := List.append_cancel_right hdata
  have h4 := congrArg decNum h3
  rw [decNum_replicate_zeros, decNum_replicate_zeros, decNum_decDigits, decNum_decDigits] at h4
  exact h4

theorem backupPathOf_inj {k m : Nat} (h : backupPathOf k = backupPathOf m) : k = m := by
  simp only [backupPathOf, List.cons.injEq, and_true] at h
  exact backupFileName_inj h.2

theorem isPre_backupDir_backupPathOf (k : Nat) : isPre backupDir (backupPathOf k) = true := by
  simp [backupDir, backupPathOf, isPre]

theorem ne_backupPathOf_of_not_under {p : FPath} (k : Nat)
    (h : isPre backupDir p = false) : p ≠ backupPathOf k := by
  intro hp
  rw [hp, isPre_backupDir_backupPathOf] at h
  exact Bool.true_eq_false.mp h

/-!  Lemmas about the filesystem operations. -/

theorem readFile_writeFile_self (fs : FS) (p : FPath) (c : String) :
    (fs.writeFile p c).readFile p = some c :=
  lookupA_setA_self p c fs.files

theorem readFile_writeFile_ne (fs : FS) {p q : FPath} (c : String) (h : q ≠ p) :
    (fs.writeFile p c).readFile q = fs.readFile q :=
  lookupA_setA_ne p q c fs.files h

theorem readFile_mkdirp (fs : FS) (d p : FPath) :
    (fs.mkdirp d).readFile p = fs.readFile p := rfl

theorem isDir_mkdirp_mono (fs : FS) {q : FPath} (d : FPath) (h : fs.isDir q = true) :
    (fs.mkdirp d).isDir q = true := by
  simp only [FS.isDir, FS.mkdirp] at h ⊢
  rw [memP_append, h]
  rfl

theorem pathExists_writeFile_mono (fs : FS) {q : FPath} (p : FPath) (c : String)
    (h : fs.pathExists q = true) : (fs.writeFile p c).pathExists q = true := by
  by_cases hqp : q = p
  · subst hqp
    simp [FS.pathExists, FS.isFile, readFile_writeFile_self]
  · simp only [FS.pathExists, FS.isFile] at h ⊢
    rw [readFile_writeFile_ne fs c hqp]
    exact h

theorem pathExists_mkdirp_mono (fs : FS) {q : FPath} (d : FPath)
    (h : fs.pathExists q = true) : (fs.mkdirp d).pathExists q = true := by
  simp only [FS.pathExists, Bool.or_eq_true] at h ⊢
  rcases h with h | h
  · exact Or.inl h
  · exact Or.inr (isDir_mkdirp_mono fs d h)

theorem pathExists_writeFile_false (fs : FS) {q p : FPath} (c : String) (hqp : q ≠ p)
    (h : fs.pathExists q = false) : (fs.writeFile p c).pathExists q = false := by
  simp only [FS.pathExists, FS.isFile, Bool.or_eq_false_iff] at h ⊢
  rw [readFile_writeFile_ne fs c hqp]
  exact h

theorem prefixesOf_backupDir : prefixesOf backupDir = [backupDir] := rfl

theorem pathExists_mkdirp_backupDir_false (fs : FS) {q : FPath} (hq : q ≠ backupDir)
    (h : fs.pathExists q = false) : (fs.mkdirp backupDir).pathExists q = false := by
  simp only [FS.pathExists, FS.isFile, FS.isDir, Bool.or_eq_false_iff] at h ⊢
  refine ⟨h.1, ?_⟩
  simp only [FS.mkdirp, prefixesOf_backupDir]
  rw [memP_append]
  have h2 : memP q ((([backupDir] : List FPath)).filter (fun x => !(memP x fs.dirs))) = false := by
    by_cases hf : (!(memP backupDir fs.dirs)) = true
    · simp [List.filter, hf, memP, Ne.symm hq]
    · simp only [Bool.not_eq_true', Bool.not_eq_true] at hf
      simp [List.filter, hf, memP]
  rw [h2, h.2]
  rfl

theorem renamePath_self (src dst : FPath) : renamePath src dst src = dst := by
  simp [renamePath, isPre_refl, List.drop_length]

theorem pathExists_renameDir_self (fs : FS) {src : FPath} (dst : FPath)
    (h : fs.pathExists src = true) : (fs.renameDir src dst).pathExists dst = true := by
  simp only [FS.pathExists, FS.isFile, FS.isDir, Bool.or_eq_true] at h ⊢
  rcases h with h | h
  · left
    rw [FS.readFile, lookupA_isSome_iff] at h ⊢
    simp only [FS.renameDir]
    rcases List.mem_map.mp h with ⟨e, he, hfst⟩
    rw [List.map_map]
    refine List.mem_map.mpr ⟨e, he, ?_⟩
    show renamePath src dst e.1 = dst
    rw [hfst, renamePath_self]
  · right
    rw [memP_iff_mem] at h ⊢
    simp only [FS.renameDir]
    exact List.mem_map.mpr ⟨src, h, renamePath_self src dst⟩

theorem renamePath_ne_src {src dst : FPath} (hnd : isPre dst src = false) :
    ∀ p : FPath, renamePath src dst p ≠ src := by
  intro p hp
  by_cases hpre : isPre src p = true
  · rw [renamePath, if_pos hpre] at hp
    rw [← hp, isPre_append] at hnd
    exact Bool.true_eq_false.mp hnd
  · simp only [Bool.not_eq_true] at hpre
    simp only [renamePath, hpre, Bool.false_eq_true, if_false] at hp
    rw [hp, isPre_refl] at hpre
    exact Bool.true_eq_false.mp hpre

theorem pathExists_renameDir_src_false (fs : FS) {src dst : FPath}
    (hnd : isPre dst src = false) : (fs.renameDir src dst).pathExists src = false := by
  have key := renamePath_ne_src hnd
  simp only [FS.pathExists, FS.isFile, FS.isDir, Bool.or_eq_false_iff]
  constructor
  · rw [FS.readFile]
    have hnone : lookupA src (fs.renameDir src dst).files = none := by
      rw [lookupA_eq_none_iff]
      intro hmem
      simp only [FS.renameDir, List.map_map] at hmem
      rcases List.mem_map.mp hmem with ⟨e, he, hfst⟩
      exact key e.1 hfst
    rw [hnone]
    rfl
  · rw [← Bool.not_eq_true, memP_iff_mem]
    intro hmem
    simp only [FS.renameDir] at hmem
    rcases List.mem_map.mp hmem with ⟨d, hd, hdst⟩
    exact key d hdst

theorem lookupA_map_renamePath {src dst q : FPath} (h1 : isPre src q = false)
    (h2 : isPre dst q = false) :
    ∀ l : List (FPath × String),
      lookupA q (l.map (fun e => (renamePath src dst e.1, e.2))) = lookupA q l := by
  intro l
  induction l with
  | nil => rfl
  | cons e rest ih =>
    by_cases hpre : isPre src e.1 = true
    · have hm : renamePath src dst e.1 ≠ q := by
        rw [renamePath, if_pos hpre]
        intro hc
        rw [← hc, isPre_append] at h2
        exact Bool.true_eq_false.mp h2
      have ho : e.1 ≠ q := by
        intro hc
        rw [hc, h1] at hpre
        exact Bool.false_eq_true.mp hpre
      simp only [List.map_cons, lookupA, hm, ho, if_false]
      exact ih
    · have hpre2 : isPre src e.1 = false := by simpa using hpre
      have hmap : renamePath src dst e.1 = e.1 := by
        simp [renamePath, hpre2]
      simp only [List.map_cons, lookupA, hmap]
      by_cases he : e.1 = q
      · simp [he]
      · simp only [he, if_false]
        exact ih

theorem memP_map_renamePath {src dst q : FPath} (h1 : isPre src q = false)
    (h2 : isPre dst q = false) :
    ∀ l : List FPath, memP q (l.map (renamePath src dst)) = memP q l := by
  intro l
  induction l with
  | nil => rfl
  | cons d rest ih =>
    by_cases hpre : isPre src d = true
    · have hm : renamePath src dst d ≠ q := by
        rw [renamePath, if_pos hpre]
        intro hc
        rw [← hc, isPre_append] at h2
        exact Bool.true_eq_false.mp h2
      have ho : d ≠ q := by
        intro hc
        rw [hc, h1] at hpre
        exact Bool.false_eq_true.mp hpre
      simp only [List.map_cons, memP, hm, ho, if_false]
      exact ih
    · have hpre2 : isPre src d = false := by simpa using hpre
      have hmap : renamePath src dst d = d := by
        simp [renamePath, hpre2]
      simp only [List.map_cons, memP, hmap]
      by_cases hd : d = q
      · simp [hd]
      · simp only [hd, if_false]
        exact ih

theorem readFile_renameDir_untouched (fs : FS) {src dst q : FPath}
    (h1 : isPre src q = false) (h2 : isPre dst q = false) :
    (fs.renameDir src dst).readFile q = fs.readFile q :=
  lookupA_map_renamePath h1 h2 fs.files

theorem pathExists_renameDir_untouched (fs : FS) {src dst q : FPath}
    (h1 : isPre src q = false) (h2 : isPre dst q = false) :
    (fs.renameDir src dst).pathExists q = fs.pathExists q := by
  simp only [FS.pathExists, FS.isFile, FS.isDir]
  rw [readFile_renameDir_untouched fs h1 h2]
  have := memP_map_renamePath h1 h2 fs.dirs
  simp only [FS.renameDir]
  rw [this]

theorem checkpoint_cleanup (sys : Sys) : (cleanup_checkpoint sys).checkpoint = none := rfl

theorem readFile_cleanup (sys : Sys) {p : FPath} (h : isPre backupDir p = false) :
    (cleanup_checkpoint sys).fs.readFile p = sys.fs.readFile p := by
  apply lookupA_filter_of_key
  intro b
  simp [strictUnderB, h]

theorem isDir_cleanup (sys : Sys) {p : FPath} (h : isPre backupDir p = false) :
    (cleanup_checkpoint sys).fs.isDir p = sys.fs.isDir p :=
  memP_filter_of_true _ _ _ (by simp [h])

theorem pathExists_cleanup (sys : Sys) {p : FPath} (h : isPre backupDir p = false) :
    (cleanup_checkpoint sys).fs.pathExists p = sys.fs.pathExists p := by
  simp only [FS.pathExists, FS.isFile]
  rw [readFile_cleanup sys h, isDir_cleanup sys h]

theorem isDir_backupDir_cleanup (sys : Sys) :
    (cleanup_checkpoint sys).fs.isDir backupDir = false :=
  memP_filter_of_false _ _ _ (by simp [isPre_refl])

/-!  Lemmas about the restore loops. -/

theorem restorePhase_readFile_notin (l : List (FPath × String)) :
    ∀ (fs : FS) (p : FPath), p ∉ l.map Prod.fst →
      (l.foldl restoreStep fs).readFile p = fs.readFile p := by
  induction l with
  | nil => intro fs p h; rfl
  | cons e rest ih =>
    intro fs p h
    simp only [List.map_cons, List.mem_cons] at h
    push_neg at h
    rw [List.foldl_cons, ih _ _ h.2]
    show ((fs.mkdirp e.1.dropLast).writeFile e.1 e.2).readFile p = fs.readFile p
    rw [readFile_writeFile_ne _ _ h.1, readFile_mkdirp]

theorem restorePhase_readFile_mem (l : List (FPath × String)) :
    ∀ (fs : FS) (p : FPath) (c : String), (l.map Prod.fst).Nodup → (p, c) ∈ l →
      (l.foldl restoreStep fs).readFile p = some c := by
  induction l with
  | nil => intro fs p c _ hmem; simp at hmem
  | cons e rest ih =>
    intro fs p c hnd hmem
    rw [List.foldl_cons]
    rcases List.mem_cons.mp hmem with he | hrest
    · have hp1 : p = e.1 := by rw [← he]
      have hnotin : p ∉ rest.map Prod.fst := by
        rw [hp1]
        exact (List.nodup_cons.mp (by simpa using hnd)).1
      rw [restorePhase_readFile_notin rest _ p hnotin]
      show ((fs.mkdirp e.1.dropLast).writeFile e.1 e.2).readFile p = some c
      rw [hp1, readFile_writeFile_self]
      rw [← he]
    · exact ih _ p c (List.nodup_cons.mp (by simpa using hnd)).2 hrest

theorem restorePhase_pathExists_mono (l : List (FPath × String)) :
    ∀ (fs : FS) (q : FPath), fs.pathExists q = true →
      (l.foldl restoreStep fs).pathExists q = true := by
  induction l with
  | nil => intro fs q h; exact h
  | cons e rest ih =>
    intro fs q h
    rw [List.foldl_cons]
    exact ih _ q (pathExists_writeFile_mono _ _ _ (pathExists_mkdirp_mono _ _ h))

theorem recoverPhase_readFile_notin (l : List (FPath × FPath)) :
    ∀ (fs : FS) (p : FPath), p ∉ l.map Prod.fst →
      (recoverRestorePhase fs l).readFile p = fs.readFile p := by
  induction l with
  | nil => intro fs p h; rfl
  | cons e rest ih =>
    intro fs p h
    simp only [List.map_cons, List.mem_cons] at h
    push_neg at h
    show (recoverRestorePhase (recoverRestoreStep fs e) rest).readFile p = fs.readFile p
    rw [ih _ _ h.2]
    cases hr : fs.readFile e.2 with
    | none => simp [recoverRestoreStep, hr]
    | some c =>
      simp only [recoverRestoreStep, hr]
      rw [readFile_writeFile_ne _ _ h.1, readFile_mkdirp]

theorem recoverPhase_pathExists_mono (l : List (FPath × FPath)) :
    ∀ (fs : FS) (q : FPath), fs.pathExists q = true →
      (recoverRestorePhase fs l).pathExists q = true := by
  induction l with
  | nil => intro fs q h; exact h
  | cons e rest ih =>
    intro fs q h
    show (recoverRestorePhase (recoverRestoreStep fs e) rest).pathExists q = true
    apply ih
    cases hr : fs.readFile e.2 with
    | none => simpa [recoverRestoreStep, hr] using h
    | some c =>
      simp only [recoverRestoreStep, hr]
      exact pathExists_writeFile_mono _ _ _ (pathExists_mkdirp_mono _ _ h)

theorem recoverPhase_restores (entries : List (FPath × FPath)) :
    ∀ (fs : FS) (horig : List (FPath × String)),
      entries.map (fun e => (e.1, fs.readFile e.2)) = horig.map (fun e => (e.1, some e.2)) →
      (entries.map Prod.fst).Nodup →
      (∀ e ∈ entries, isPre backupDir e.2 = true ∧ isPre backupDir e.1 = false) →
      ∀ p c, (p, c) ∈ horig → (recoverRestorePhase fs entries).readFile p = some c := by
  induction entries with
  | nil =>
    intro fs horig halign _ _ p c hmem
    cases horig with
    | nil => simp at hmem
    | cons h0 rest2 => simp at halign
  | cons e rest ih =>
    intro fs horig halign hnd hsep p c hmem
    cases horig with
    | nil => simp at halign
    | cons h0 rest2 =>
      simp only [List.map_cons, List.cons.injEq, Prod.mk.injEq] at halign
      obtain ⟨⟨hkey, hval⟩, htail⟩ := halign
      have hstep : recoverRestoreStep fs e = (fs.mkdirp e.1.dropLast).writeFile e.1 h0.2 := by
        simp [recoverRestoreStep, hval]
      have hsep_e := hsep e (List.mem_cons_self e rest)
      have htail1 : rest.map (fun e2 => (e2.1, (recoverRestoreStep fs e).readFile e2.2))
          = rest2.map (fun e2 => (e2.1, some e2.2)) := by
        rw [← htail]
        apply List.map_congr_left
        intro e2 he2
        have hsep2 := hsep e2 (List.mem_cons_of_mem e he2)
        have hne : e2.2 ≠ e.1 := by
          intro hc
          rw [hc, hsep_e.2] at hsep2
          exact Bool.false_eq_true.mp hsep2.1
        rw [hstep]
        rw [readFile_writeFile_ne _ _ hne, readFile_mkdirp]
      show (recoverRestorePhase (recoverRestoreStep fs e) rest).readFile p = some c
      rcases List.mem_cons.mp hmem with hh | hh
      · have hp1 : p = e.1 := by rw [hkey, ← hh]
        have hc1 : c = h0.2 := by rw [← hh]
        have hnotin : p ∉ rest.map Prod.fst := by
          rw [hp1]
          exact (List.nodup_cons.mp (by simpa using hnd)).1
        rw [recoverPhase_readFile_notin rest _ p hnotin, hstep, hp1,
          readFile_writeFile_self, hc1]
      · exact ih _ rest2 htail1 (List.nodup_cons.mp (by simpa using hnd)).2
          (fun e2 he2 => hsep e2 (List.mem_cons_of_mem e he2)) p c hh

/-!  Case equations for `backup_text_file` and `rename_package_dir`, and
small disjointness facts about the fixed paths. -/

theorem backup_noop_recorded {p : FPath} {s : RollbackState × Sys}
    (h : (lookupA p s.1.original_files).isSome = true) : backup_text_file p s = s := by
  simp [backup_text_file, h]

theorem backup_noop_nofile {p : FPath} {s : RollbackState × Sys}
    (h1 : lookupA p s.1.original_files = none) (h2 : s.2.fs.readFile p = none) :
    backup_text_file p s = s := by
  simp [backup_text_file, h1, h2]

theorem backup_eq_of_new {p : FPath} {s : RollbackState × Sys} {c : String}
    (h1 : lookupA p s.1.original_files = none) (h2 : s.2.fs.readFile p = some c) :
    backup_text_file p s =
      (⟨s.1.original_files ++ [(p, c)], s.1.renamed_dirs,
        s.1.backup_files ++ [(p, backupPathOf s.1.backup_files.length)]⟩,
       ⟨((s.2.fs.mkdirp backupDir).writeFile (backupPathOf s.1.backup_files.length) c).mkdirp
          backupDir,
        some (checkpoint_payload
          ⟨s.1.original_files ++ [(p, c)], s.1.renamed_dirs,
           s.1.backup_files ++ [(p, backupPathOf s.1.backup_files.length)]⟩)⟩) := by
  simp [backup_text_file, h1, h2, write_checkpoint]

theorem rename_noop_gone {n : String} {s : RollbackState × Sys}
    (h : s.2.fs.pathExists tplDir = false) : rename_package_dir n s = .ok s := by
  have h2 : s.2.fs.pathExists ["src", "py_template"] = false := h
  simp [rename_package_dir, h2]

theorem rename_noop_same {s : RollbackState × Sys} :
    rename_package_dir "py_template" s = .ok s := by
  simp [rename_package_dir]

theorem rename_err_eq {n : String} {s : RollbackState × Sys}
    (h1 : s.2.fs.pathExists tplDir = true) (h2 : n ≠ "py_template")
    (h3 : s.2.fs.pathExists ["src", n] = true) :
    rename_package_dir n s = .error ("Target package path already exists: src/" ++ n) := by
  have hne : ¬ ((["src", "py_template"] : FPath) = ["src", n]) := by
    simpa using Ne.symm h2
  have h1b : s.2.fs.pathExists ["src", "py_template"] = true := h1
  simp [rename_package_dir, h1b, hne, h3]

theorem rename_ok_eq {n : String} {s : RollbackState × Sys}
    (h1 : s.2.fs.pathExists tplDir = true) (h2 : n ≠ "py_template")
    (h3 : s.2.fs.pathExists ["src", n] = false) :
    rename_package_dir n s =
      .ok (⟨s.1.original_files, s.1.renamed_dirs ++ [(tplDir, ["src", n])],
            s.1.backup_files⟩,
           ⟨(s.2.fs.renameDir tplDir ["src", n]).mkdirp backupDir,
            some (checkpoint_payload
              ⟨s.1.original_files, s.1.renamed_dirs ++ [(tplDir, ["src", n])],
               s.1.backup_files⟩)⟩) := by
  have hne : ¬ ((["src", "py_template"] : FPath) = ["src", n]) := by
    simpa using Ne.symm h2
  have h1b : s.2.fs.pathExists ["src", "py_template"] = true := h1
  have h3b : s.2.fs.pathExists ["src", n] = false := h3
  simp [rename_package_dir, h1b, hne, h3b, write_checkpoint, tplDir]

theorem src_pair_ne_backupPathOf (x : String) (k : Nat) :
    (["src", x] : FPath) ≠ backupPathOf k := by
  intro hc
  have h2 : ("src" : String) = backupDirName := by
    simpa [backupPathOf] using congrArg (fun l => l.headD "") hc
  exact absurd h2 (by decide)

theorem src_pair_ne_backupDir (x : String) : (["src", x] : FPath) ≠ backupDir := by
  intro hc
  have h2 := congrArg List.length hc
  simp [backupDir] at h2

theorem isPre_src_pair_backup_false (x : String) {b : FPath}
    (hb : isPre backupDir b = true) : isPre (["src", x] : FPath) b = false ∧
      isPre tplDir b = false := by
  cases b with
  | nil => simp [isPre] at hb
  | cons hd tl =>
    have hhd : hd = backupDirName := by
      by_cases hx : backupDirName = hd
      · exact hx.symm
      · rw [backupDir] at hb
        rw [isPre_cons_ne _ _ hx] at hb
        exact absurd hb (by simp)
    subst hhd
    constructor
    · exact isPre_cons_ne _ _ (by decide)
    · exact isPre_cons_ne _ _ (by decide)

theorem isFile_writeFile_mono (fs : FS) {p : FPath} (q : FPath) (c : String)
    (h : fs.isFile p = true) : (fs.writeFile q c).isFile p = true := by
  by_cases hpq : p = q
  · subst hpq
    simp [FS.isFile, readFile_writeFile_self]
  · simp only [FS.isFile]
    rw [readFile_writeFile_ne _ _ hpq]
    exact h

theorem isFile_mkdirp (fs : FS) (d p : FPath) : (fs.mkdirp d).isFile p = fs.isFile p := rfl

/-!  Preservation of the structural run invariant `InvB`. -/

theorem backup_cases (p : FPath) (s : RollbackState × Sys) :
    backup_text_file p s = s ∨
    ∃ c, lookupA p s.1.original_files = none ∧ s.2.fs.readFile p = some c ∧
      backup_text_file p s =
        (⟨s.1.original_files ++ [(p, c)], s.1.renamed_dirs,
          s.1.backup_files ++ [(p, backupPathOf s.1.backup_files.length)]⟩,
         ⟨((s.2.fs.mkdirp backupDir).writeFile (backupPathOf s.1.backup_files.length) c).mkdirp
            backupDir,
          some (checkpoint_payload
            ⟨s.1.original_files ++ [(p, c)], s.1.renamed_dirs,
             s.1.backup_files ++ [(p, backupPathOf s.1.backup_files.length)]⟩)⟩) := by
  by_cases h1 : (lookupA p s.1.original_files).isSome = true
  · exact Or.inl (backup_noop_recorded h1)
  · have h1n : lookupA p s.1.original_files = none := by
      cases hx : lookupA p s.1.original_files with
      | none => rfl
      | some b => rw [hx] at h1; simp at h1
    cases h2 : s.2.fs.readFile p with
    | none => exact Or.inl (backup_noop_nofile h1n h2)
    | some c => exact Or.inr ⟨c, h1n, rfl, backup_eq_of_new h1n h2⟩

theorem backup_fs_pathExists_false (p : FPath) (s : RollbackState × Sys) {q : FPath}
    (hq1 : q ≠ backupDir) (hq2 : ∀ k, q ≠ backupPathOf k)
    (h : s.2.fs.pathExists q = false) :
    (backup_text_file p s).2.fs.pathExists q = false := by
  rcases backup_cases p s with hc | ⟨c, _, _, hc⟩
  · rw [hc]; exact h
  · rw [hc]
    exact pathExists_mkdirp_backupDir_false _ hq1
      (pathExists_writeFile_false _ _ (hq2 _)
        (pathExists_mkdirp_backupDir_false _ hq1 h))

theorem backup_fs_pathExists_mono (p : FPath) (s : RollbackState × Sys) {q : FPath}
    (h : s.2.fs.pathExists q = true) :
    (backup_text_file p s).2.fs.pathExists q = true := by
  rcases backup_cases p s with hc | ⟨c, _, _, hc⟩
  · rw [hc]; exact h
  · rw [hc]
    exact pathExists_mkdirp_mono _ _
      (pathExists_writeFile_mono _ _ _ (pathExists_mkdirp_mono _ _ h))

theorem backup_fs_isFile_mono (p : FPath) (s : RollbackState × Sys) {q : FPath}
    (h : s.2.fs.isFile q = true) :
    (backup_text_file p s).2.fs.isFile q = true := by
  rcases backup_cases p s with hc | ⟨c, _, _, hc⟩
  · rw [hc]; exact h
  · rw [hc]
    show (((s.2.fs.mkdirp backupDir).writeFile _ c).mkdirp backupDir).isFile q = true
    rw [isFile_mkdirp]
    exact isFile_writeFile_mono _ _ _ h

theorem invB_backup (p : FPath) (s : RollbackState × Sys) (h : InvB s) :
    InvB (backup_text_file p s) := by
  rcases backup_cases p s with hc | ⟨c, h1n, h2, hc⟩
  · rw [hc]; exact h
  · refine ⟨?_, ?_, ?_⟩
    · rw [hc]
      simp [List.map_append, h.keysEq]
    · rw [hc]
      have hnotin : p ∉ s.1.original_files.map Prod.fst := (lookupA_eq_none_iff p _).mp h1n
      simp [List.nodup_append, h.keysNd, hnotin]
    · rcases h.ren with hren | ⟨name, hname, hrd, hnotex, hex⟩
      · left; rw [hc]; exact hren
      · right
        refine ⟨name, hname, ?_, ?_, ?_⟩
        · rw [hc]; exact hrd
        · exact backup_fs_pathExists_false p s (src_pair_ne_backupDir "py_template")
            (fun k => src_pair_ne_backupPathOf "py_template" k) hnotex
        · exact backup_fs_pathExists_mono p s hex

theorem invB_mutate (p : FPath) (c : String) (s : RollbackState × Sys) (h : InvB s)
    (hf : s.2.fs.isFile p = true) :
    InvB ((backup_text_file p s).1,
      ⟨(backup_text_file p s).2.fs.writeFile p c, (backup_text_file p s).2.checkpoint⟩) := by
  have h1 := invB_backup p s h
  refine ⟨h1.keysEq, h1.keysNd, ?_⟩
  rcases h1.ren with hren | ⟨name, hname, hrd, hnotex, hex⟩
  · left; exact hren
  · right
    have hf1 : (backup_text_file p s).2.fs.isFile p = true := backup_fs_isFile_mono p s hf
    have hptpl : p ≠ tplDir := by
      intro hc2
      subst hc2
      have hex2 : (backup_text_file tplDir s).2.fs.pathExists tplDir = true := by
        simp [FS.pathExists, hf1]
      rw [hex2] at hnotex
      exact Bool.true_eq_false.mp hnotex
    refine ⟨name, hname, hrd, ?_, ?_⟩
    · exact pathExists_writeFile_false _ _ (Ne.symm hptpl) hnotex
    · exact pathExists_writeFile_mono _ _ _ hex

theorem isPre_srcpair_tpl_false {n : String} (hn : n ≠ "py_template") :
    isPre (["src", n] : FPath) tplDir = false := by
  simp [tplDir, isPre, hn]

theorem invB_execEvent (e : Event) (s : RollbackState × Sys) (h : InvB s) :
    InvB (execEvent e s).1 := by
  cases e with
  | backupEv p => exact invB_backup p s h
  | mutateEv p c =>
    by_cases hf : s.2.fs.isFile p = true
    · simp only [execEvent, hf, if_true]
      exact invB_mutate p c s h hf
    · have hf2 : s.2.fs.isFile p = false := by simpa using hf
      simp only [execEvent, hf2, Bool.false_eq_true, if_false]
      exact h
  | failEv => exact h
  | renameEv n =>
    by_cases htl : s.2.fs.pathExists tplDir = true
    · by_cases hn : n = "py_template"
      · subst hn
        simp only [execEvent, rename_noop_same]
        exact h
      · by_cases hnew : s.2.fs.pathExists ["src", n] = true
        · simp only [execEvent, rename_err_eq htl hn hnew]
          exact h
        · have hnew2 : s.2.fs.pathExists ["src", n] = false := by simpa using hnew
          simp only [execEvent, rename_ok_eq htl hn hnew2]
          have hrenEmpty : s.1.renamed_dirs = [] := by
            rcases h.ren with hx | ⟨name, _, _, hnotex, _⟩
            · exact hx
            · rw [htl] at hnotex
              exact absurd hnotex (by simp)
          refine ⟨h.keysEq, h.keysNd, Or.inr ⟨n, hn, ?_, ?_, ?_⟩⟩
          · simp [hrenEmpty]
          · apply pathExists_mkdirp_backupDir_false _ (src_pair_ne_backupDir "py_template")
            exact pathExists_renameDir_src_false _ (isPre_srcpair_tpl_false hn)
          · exact pathExists_mkdirp_mono _ _ (pathExists_renameDir_self _ _ htl)
    · have htl2 : s.2.fs.pathExists tplDir = false := by simpa using htl
      simp only [execEvent, rename_noop_gone htl2]
      exact h

theorem invB_execEvents (evs : List Event) :
    ∀ s : RollbackState × Sys, InvB s → InvB (execEvents evs s).1 := by
  induction evs with
  | nil => intro s h; exact h
  | cons e rest ih =>
    intro s h
    have h1 := invB_execEvent e s h
    cases hx : execEvent e s with
    | mk s1 raised =>
      rw [hx] at h1
      cases raised with
      | true => simpa [execEvents, hx] using h1
      | false =>
        simp only [execEvents, hx]
        exact ih s1 h1

theorem invB_init (sys0 : Sys) : InvB (initRollbackState, sys0) := by
  refine ⟨rfl, List.nodup_nil, Or.inl rfl⟩

/-!  Preservation of the content invariant `InvC` on well-formed runs. -/

theorem bPaths_mem {s : RollbackState × Sys} (hC : InvC s) {e : FPath × FPath}
    (he : e ∈ s.1.backup_files) :
    ∃ k, k < s.1.backup_files.length ∧ e.2 = backupPathOf k := by
  have h2 : e.2 ∈ s.1.backup_files.map Prod.snd := List.mem_map_of_mem Prod.snd he
  rw [hC.bPaths] at h2
  rcases List.mem_map.mp h2 with ⟨k, hk, hke⟩
  exact ⟨k, List.mem_range.mp hk, hke.symm⟩

theorem invC_backup (p : FPath) (s : RollbackState × Sys)
    (hwf : isPre backupDir p = false) (hC : InvC s) : InvC (backup_text_file p s) := by
  rcases backup_cases p s with hc | ⟨c, h1n, h2, hc⟩
  · rw [hc]; exact hC
  · rw [hc]
    set len := s.1.backup_files.length with hlen
    set bp := backupPathOf len with hbp
    have hreadpres : ∀ e ∈ s.1.backup_files,
        (((s.2.fs.mkdirp backupDir).writeFile bp c).mkdirp backupDir).readFile e.2
          = s.2.fs.readFile e.2 := by
      intro e he
      rcases bPaths_mem hC he with ⟨k, hk, hke⟩
      rw [readFile_mkdirp, hke]
      have hne : backupPathOf k ≠ bp := by
        intro hcc
        rw [hbp] at hcc
        exact absurd (backupPathOf_inj hcc) (by omega)
      rw [readFile_writeFile_ne _ _ hne, readFile_mkdirp]
    refine ⟨?_, ?_, ?_, ?_⟩
    · show (s.1.backup_files ++ [(p, bp)]).map Prod.snd
        = (List.range (s.1.backup_files ++ [(p, bp)]).length).map backupPathOf
      rw [List.map_append, hC.bPaths]
      simp [List.range_succ, hbp, hlen]
    · show (s.1.backup_files ++ [(p, bp)]).map
          (fun e => (e.1, (((s.2.fs.mkdirp backupDir).writeFile bp c).mkdirp backupDir).readFile e.2))
        = (s.1.original_files ++ [(p, c)]).map (fun e => (e.1, some e.2))
      rw [List.map_append, List.map_append]
      congr 1
      · rw [List.map_congr_left (fun e he => by rw [hreadpres e he]), hC.reads]
      · simp [readFile_mkdirp, readFile_writeFile_self]
    · intro e he
      rcases List.mem_append.mp he with he1 | he1
      · exact hC.keysSep e he1
      · have : e = (p, c) := by simpa using he1
        rw [this]
        exact hwf
    · right
      rfl

theorem invC_write (s : RollbackState × Sys) (p : FPath) (c : String)
    (hwf : isPre backupDir p = false) (hC : InvC s) :
    InvC (s.1, ⟨s.2.fs.writeFile p c, s.2.checkpoint⟩) := by
  refine ⟨hC.bPaths, ?_, hC.keysSep, hC.ckpt⟩
  show s.1.backup_files.map (fun e => (e.1, (s.2.fs.writeFile p c).readFile e.2))
    = s.1.original_files.map (fun e => (e.1, some e.2))
  rw [← hC.reads]
  apply List.map_congr_left
  intro e he
  rcases bPaths_mem hC he with ⟨k, hk, hke⟩
  have hne : e.2 ≠ p := by
    rw [hke]
    intro hcc
    rw [← hcc, isPre_backupDir_backupPathOf] at hwf
    exact Bool.true_eq_false.mp hwf
  rw [readFile_writeFile_ne _ _ hne]

theorem invC_execEvent (e : Event) (s : RollbackState × Sys) (hwf : eventWF e = true)
    (hC : InvC s) : InvC (execEvent e s).1 := by
  cases e with
  | backupEv p =>
    have hwf2 : isPre backupDir p = false := by simpa [eventWF] using hwf
    exact invC_backup p s hwf2 hC
  | mutateEv p c =>
    have hwf2 : isPre backupDir p = false := by simpa [eventWF] using hwf
    by_cases hf : s.2.fs.isFile p = true
    · simp only [execEvent, hf, if_true]
      exact invC_write _ p c hwf2 (invC_backup p s hwf2 hC)
    · have hf2 : s.2.fs.isFile p = false := by simpa using hf
      simp only [execEvent, hf2, Bool.false_eq_true, if_false]
      exact hC
  | failEv => exact hC
  | renameEv n =>
    by_cases htl : s.2.fs.pathExists tplDir = true
    · by_cases hn : n = "py_template"
      · subst hn
        simp only [execEvent, rename_noop_same]
        exact hC
      · by_cases hnew : s.2.fs.pathExists ["src", n] = true
        · simp only [execEvent, rename_err_eq htl hn hnew]
          exact hC
        · have hnew2 : s.2.fs.pathExists ["src", n] = false := by simpa using hnew
          simp only [execEvent, rename_ok_eq htl hn hnew2]
          refine ⟨hC.bPaths, ?_, hC.keysSep, Or.inr rfl⟩
          show s.1.backup_files.map
              (fun e => (e.1, ((s.2.fs.renameDir tplDir ["src", n]).mkdirp backupDir).readFile e.2))
            = s.1.original_files.map (fun e => (e.1, some e.2))
          rw [← hC.reads]
          apply List.map_congr_left
          intro e he
          rcases bPaths_mem hC he with ⟨k, hk, hke⟩
          have hb : isPre backupDir e.2 = true := by
            rw [hke]
            exact isPre_backupDir_backupPathOf k
          rcases isPre_src_pair_backup_false n hb with ⟨hsrc, htpl⟩
          rw [readFile_mkdirp, readFile_renameDir_untouched _ htpl hsrc]
    · have htl2 : s.2.fs.pathExists tplDir = false := by simpa using htl
      simp only [execEvent, rename_noop_gone htl2]
      exact hC

theorem invC_execEvents (evs : List Event) :
    ∀ s : RollbackState × Sys, eventsWF evs = true → InvC s → InvC (execEvents evs s).1 := by
  induction evs with
  | nil => intro s _ h; exact h
  | cons e rest ih =>
    intro s hwf h
    have hwfe : eventWF e = true := by
      simp only [eventsWF, List.all_cons, Bool.and_eq_true] at hwf
      exact hwf.1
    have hwfr : eventsWF rest = true := by
      simp only [eventsWF, List.all_cons, Bool.and_eq_true] at hwf
      exact hwf.2
    have h1 := invC_execEvent e s hwfe h
    cases hx : execEvent e s with
    | mk s1 raised =>
      rw [hx] at h1
      cases raised with
      | true => simpa [execEvents, hx] using h1
      | false =>
        simp only [execEvents, hx]
        exact ih s1 hwfr h1

theorem invC_init (sys0 : Sys) : InvC (initRollbackState, sys0) := by
  refine ⟨rfl, rfl, ?_, Or.inl ⟨rfl, rfl⟩⟩
  intro e he
  simp [initRollbackState] at he

/-!  Core correctness of `rollback_changes` and `recover_from_checkpoint`. -/

theorem exists_snd_of_mem_keys {α β : Type} (a : α) (l : List (α × β))
    (h : a ∈ l.map Prod.fst) : ∃ b, (a, b) ∈ l := by
  rcases List.mem_map.mp h with ⟨e, he, hfst⟩
  refine ⟨e.2, ?_⟩
  rw [← hfst]
  simpa using he

theorem rollback_restores_file (state : RollbackState) (sys : Sys)
    (hnd : (state.original_files.map Prod.fst).Nodup)
    {p : FPath} {c : String} (hmem : (p, c) ∈ state.original_files)
    (hsep : isPre backupDir p = false) :
    (rollback_changes state sys).fs.readFile p = some c := by
  have hne : ¬(state.original_files = [] ∧ state.renamed_dirs = []) := by
    rintro ⟨h1, _⟩
    rw [h1] at hmem
    simp at hmem
  simp only [rollback_changes]
  rw [if_neg hne]
  rw [readFile_cleanup _ hsep]
  exact restorePhase_readFile_mem _ _ p c hnd hmem

theorem rollback_restores_dir (state : RollbackState) (sys : Sys)
    (hren : state.renamed_dirs = [] ∨
      ∃ name, name ≠ "py_template" ∧ state.renamed_dirs = [(tplDir, ["src", name])] ∧
        sys.fs.pathExists tplDir = false ∧ sys.fs.pathExists ["src", name] = true)
    {o nw : FPath} (hmem : (o, nw) ∈ state.renamed_dirs) :
    (rollback_changes state sys).fs.pathExists o = true := by
  rcases hren with hE | ⟨name, hname, hrd, hnotex, hex⟩
  · rw [hE] at hmem
    simp at hmem
  · rw [hrd] at hmem
    simp only [List.mem_singleton, Prod.mk.injEq] at hmem
    obtain ⟨ho, hnw⟩ := hmem
    subst ho
    have hne : ¬(state.original_files = [] ∧ state.renamed_dirs = []) := by
      rintro ⟨_, h2⟩
      rw [h2] at hrd
      simp at hrd
    simp only [rollback_changes]
    rw [if_neg hne]
    rw [pathExists_cleanup _ (by decide : isPre backupDir tplDir = false)]
    apply restorePhase_pathExists_mono
    rw [hrd, List.reverse_singleton]
    simp only [List.foldl_cons, List.foldl_nil]
    rw [undoRenameStep]
    have hcond : (sys.fs.pathExists (tplDir, (["src", name] : FPath)).2 &&
        !(sys.fs.pathExists (tplDir, (["src", name] : FPath)).1)) = true := by
      simp [hex, hnotex]
    rw [if_pos hcond]
    exact pathExists_renameDir_self _ _ hex

theorem recover_noop {sys : Sys} (h : sys.checkpoint = none) :
    recover_from_checkpoint sys = sys := by
  simp [recover_from_checkpoint, h]

theorem recover_restores_file (state : RollbackState) (sys : Sys)
    (hB : InvB (state, sys)) (hC : InvC (state, sys))
    {p : FPath} {c : String} (hmem : (p, c) ∈ state.original_files) :
    (recover_from_checkpoint sys).fs.readFile p = some c := by
  have hck : sys.checkpoint = some (checkpoint_payload state) := by
    rcases hC.ckpt with ⟨h1, _⟩ | h1
    · rw [h1] at hmem
      simp at hmem
    · exact h1
  simp only [recover_from_checkpoint, hck]
  have hsep : isPre backupDir p = false := hC.keysSep (p, c) hmem
  rw [readFile_cleanup _ hsep]
  have hfs1 : ∀ e ∈ state.backup_files,
      (state.renamed_dirs.reverse.foldl undoRenameStep sys.fs).readFile e.2
        = sys.fs.readFile e.2 := by
    intro e he
    rcases bPaths_mem hC he with ⟨k, hk, hke⟩
    have hb : isPre backupDir e.2 = true := by
      rw [hke]
      exact isPre_backupDir_backupPathOf k
    rcases hB.ren with hE | ⟨name, hname, hrd, hnotex, hex⟩
    · rw [hE]
      rfl
    · rw [hrd, List.reverse_singleton]
      simp only [List.foldl_cons, List.foldl_nil]
      rw [undoRenameStep]
      by_cases hcond : (sys.fs.pathExists (tplDir, (["src", name] : FPath)).2 &&
          !(sys.fs.pathExists (tplDir, (["src", name] : FPath)).1)) = true
      · rw [if_pos hcond]
        rcases isPre_src_pair_backup_false name hb with ⟨hsrc, htpl⟩
        exact readFile_renameDir_untouched _ hsrc htpl
      · rw [if_neg hcond]
  apply recoverPhase_restores (checkpoint_payload state).files _ state.original_files
  · show state.backup_files.map
        (fun e => (e.1, (state.renamed_dirs.reverse.foldl undoRenameStep sys.fs).readFile e.2))
      = state.original_files.map (fun e => (e.1, some e.2))
    rw [← hC.reads]
    exact List.map_congr_left (fun e he => by rw [hfs1 e he])
  · show (state.backup_files.map Prod.fst).Nodup
    rw [hB.keysEq]
    exact hB.keysNd
  · intro e he
    constructor
    · rcases bPaths_mem hC he with ⟨k, hk, hke⟩
      rw [hke]
      exact isPre_backupDir_backupPathOf k
    · have h1 : e.1 ∈ state.backup_files.map Prod.fst := List.mem_map_of_mem Prod.fst he
      rw [hB.keysEq] at h1
      rcases exists_snd_of_mem_keys e.1 _ h1 with ⟨c2, hc2⟩
      exact hC.keysSep (e.1, c2) hc2
  · exact hmem

theorem recover_restores_dir (state : RollbackState) (sys : Sys)
    (hB : InvB (state, sys)) (hC : InvC (state, sys))
    {o nw : FPath} (hmem : (o, nw) ∈ state.renamed_dirs) :
    (recover_from_checkpoint sys).fs.pathExists o = true := by
  have hck : sys.checkpoint = some (checkpoint_payload state) := by
    rcases hC.ckpt with ⟨_, h2⟩ | h1
    · rw [h2] at hmem
      simp at hmem
    · exact h1
  rcases hB.ren with hE | ⟨name, hname, hrd, hnotex, hex⟩
  · rw [hE] at hmem
    simp at hmem
  · rw [hrd] at hmem
    simp only [List.mem_singleton, Prod.mk.injEq] at hmem
    obtain ⟨ho, hnw⟩ := hmem
    subst ho
    simp only [recover_from_checkpoint, hck]
    rw [pathExists_cleanup _ (by decide : isPre backupDir tplDir = false)]
    apply recoverPhase_pathExists_mono
    show (state.renamed_dirs.reverse.foldl undoRenameStep sys.fs).pathExists tplDir = true
    rw [hrd, List.reverse_singleton]
    simp only [List.foldl_cons, List.foldl_nil]
    rw [undoRenameStep]
    have hcond : (sys.fs.pathExists (tplDir, (["src", name] : FPath)).2 &&
        !(sys.fs.pathExists (tplDir, (["src", name] : FPath)).1)) = true := by
      simp [hex, hnotex]
    rw [if_pos hcond]
    exact pathExists_renameDir_self _ _ hex

/-!  Preservation of `InvO` (rename-free, well-formed runs only). -/

theorem invO_backup (sys0 : Sys) (p : FPath) (s : RollbackState × Sys)
    (hwf : isPre backupDir p = false) (hO : InvO sys0 s) :
    InvO sys0 (backup_text_file p s) := by
  rcases backup_cases p s with hc | ⟨c, h1n, h2, hc⟩
  · rw [hc]; exact hO
  · rw [hc]
    constructor
    · intro q hq hqlook
      have hq2 : q ∉ (s.1.original_files ++ [(p, c)]).map Prod.fst :=
        (lookupA_eq_none_iff q _).mp hqlook
      simp only [List.map_append, List.mem_append, List.map_cons, List.map_nil,
        List.mem_singleton] at hq2
      push_neg at hq2
      have hqlook1 : lookupA q s.1.original_files = none :=
        (lookupA_eq_none_iff q _).mpr hq2.1
      show (((s.2.fs.mkdirp backupDir).writeFile _ c).mkdirp backupDir).readFile q
        = sys0.fs.readFile q
      rw [readFile_mkdirp, readFile_writeFile_ne _ _ (ne_backupPathOf_of_not_under _ hq),
        readFile_mkdirp]
      exact hO.1 q hq hqlook1
    · intro e he
      rcases List.mem_append.mp he with he1 | he1
      · exact hO.2 e he1
      · have he2 : e = (p, c) := by simpa using he1
        rw [he2]
        show sys0.fs.readFile p = some c
        rw [← hO.1 p hwf h1n]
        exact h2

theorem backup_records (p : FPath) (s : RollbackState × Sys)
    (hf : s.2.fs.isFile p = true) :
    (lookupA p (backup_text_file p s).1.original_files).isSome = true := by
  by_cases h1 : (lookupA p s.1.original_files).isSome = true
  · rw [backup_noop_recorded h1]
    exact h1
  · have h1n : lookupA p s.1.original_files = none := by
      cases hx : lookupA p s.1.original_files with
      | none => rfl
      | some b => rw [hx] at h1; simp at h1
    cases h2 : s.2.fs.readFile p with
    | none =>
      rw [FS.isFile, h2] at hf
      simp at hf
    | some c =>
      rw [backup_eq_of_new h1n h2]
      show (lookupA p (s.1.original_files ++ [(p, c)])).isSome = true
      rw [lookupA_append_left p _ _ h1n]
      simp [lookupA]

theorem invO_execEvent (sys0 : Sys) (e : Event) (s : RollbackState × Sys)
    (hwf : eventWF e = true) (hnr : isRenameEv e = false) (hO : InvO sys0 s) :
    InvO sys0 (execEvent e s).1 := by
  cases e with
  | backupEv p =>
    exact invO_backup sys0 p s (by simpa [eventWF] using hwf) hO
  | mutateEv p c =>
    have hwf2 : isPre backupDir p = false := by simpa [eventWF] using hwf
    by_cases hf : s.2.fs.isFile p = true
    · simp only [execEvent, hf, if_true]
      have hO1 := invO_backup sys0 p s hwf2 hO
      have hrec := backup_records p s hf
      constructor
      · intro q hq hqlook
        have hqp : q ≠ p := by
          intro hc
          rw [hc] at hqlook
          rw [hqlook] at hrec
          simp at hrec
        show ((backup_text_file p s).2.fs.writeFile p c).readFile q = sys0.fs.readFile q
        rw [readFile_writeFile_ne _ _ hqp]
        exact hO1.1 q hq hqlook
      · exact hO1.2
    · have hf2 : s.2.fs.isFile p = false := by simpa using hf
      simp only [execEvent, hf2, Bool.false_eq_true, if_false]
      exact hO
  | failEv => exact hO
  | renameEv n => simp [isRenameEv] at hnr

theorem invO_execEvents (sys0 : Sys) (evs : List Event) :
    ∀ s : RollbackState × Sys, eventsWF evs = true →
      (∀ e ∈ evs, isRenameEv e = false) → InvO sys0 s →
      InvO sys0 (execEvents evs s).1 := by
  induction evs with
  | nil => intro s _ _ h; exact h
  | cons e rest ih =>
    intro s hwf hnr h
    have hwfe : eventWF e = true := by
      simp only [eventsWF, List.all_cons, Bool.and_eq_true] at hwf
      exact hwf.1
    have hwfr : eventsWF rest = true := by
      simp only [eventsWF, List.all_cons, Bool.and_eq_true] at hwf
      exact hwf.2
    have h1 := invO_execEvent sys0 e s hwfe (hnr e (List.mem_cons_self e rest)) h
    cases hx : execEvent e s with
    | mk s1 raised =>
      rw [hx] at h1
      cases raised with
      | true => simpa [execEvents, hx] using h1
      | false =>
        simp only [execEvents, hx]
        exact ih s1 hwfr (fun e2 he2 => hnr e2 (List.mem_cons_of_mem e he2)) h1

theorem invO_init (sys0 : Sys) : InvO sys0 (initRollbackState, sys0) := by
  constructor
  · intro q _ _
    rfl
  · intro e he
    simp [initRollbackState] at he

/-!  Claim theorems. -/

/-- C1: For every (well-formed) run in which files were backed up via
`backup_text_file` and directories renamed via `rename_package_dir`, running
`rollback_changes` (or `recover_from_checkpoint` after a crash) restores
every touched file's content to exactly its pre-mutation content (the
content recorded at first touch, which in a rename-free run equals the
initial content at that path) and restores every renamed directory to its
original location. -/
theorem c1_rollback_recover_roundtrip (events : List Event) (sys0 : Sys)
    (hwf : eventsWF events = true) :
    ((∀ p c, (p, c) ∈ (execEvents events (initRollbackState, sys0)).1.1.original_files →
        (rollback_changes (execEvents events (initRollbackState, sys0)).1.1
          (execEvents events (initRollbackState, sys0)).1.2).fs.readFile p = some c) ∧
     (∀ o nw, (o, nw) ∈ (execEvents events (initRollbackState, sys0)).1.1.renamed_dirs →
        (rollback_changes (execEvents events (initRollbackState, sys0)).1.1
          (execEvents events (initRollbackState, sys0)).1.2).fs.pathExists o = true)) ∧
    ((∀ p c, (p, c) ∈ (execEvents events (initRollbackState, sys0)).1.1.original_files →
        (recover_from_checkpoint
          (execEvents events (initRollbackState, sys0)).1.2).fs.readFile p = some c) ∧
     (∀ o nw, (o, nw) ∈ (execEvents events (initRollbackState, sys0)).1.1.renamed_dirs →
        (recover_from_checkpoint
          (execEvents events (initRollbackState, sys0)).1.2).fs.pathExists o = true)) ∧
    ((∀ e ∈ events, isRenameEv e = false) →
      ∀ p c, (p, c) ∈ (execEvents events (initRollbackState, sys0)).1.1.original_files →
        sys0.fs.readFile p = some c) := by
  have hB : InvB (execEvents events (initRollbackState, sys0)).1 :=
    invB_execEvents events _ (invB_init sys0)
  have hC : InvC (execEvents events (initRollbackState, sys0)).1 :=
    invC_execEvents events _ hwf (invC_init sys0)
  refine ⟨⟨?_, ?_⟩, ⟨?_, ?_⟩, ?_⟩
  · intro p c hmem
    exact rollback_restores_file _ _ hB.keysNd hmem (hC.keysSep (p, c) hmem)
  · intro o nw hmem
    exact rollback_restores_dir _ _ hB.ren hmem
  · intro p c hmem
    exact recover_restores_file _ _ hB hC hmem
  · intro o nw hmem
    exact recover_restores_dir _ _ hB hC hmem
  · intro hnr p c hmem
    have hO : InvO sys0 (execEvents events (initRollbackState, sys0)).1 :=
      invO_execEvents sys0 events _ hwf hnr (invO_init sys0)
    exact hO.2 (p, c) hmem

/-- Witness for C1 at a concrete run: a mutated file, a renamed package
directory and a bare backup, rolled back and recovered. -/
theorem c1_rollback_recover_roundtrip_witness :
    eventsWF [Event.mutateEv ["a.txt"] "new", Event.renameEv "cool_tool",
        Event.backupEv ["uv.lock"]] = true ∧
    (rollback_changes
      (execEvents [Event.mutateEv ["a.txt"] "new", Event.renameEv "cool_tool",
          Event.backupEv ["uv.lock"]]
        (initRollbackState,
         ⟨⟨[(["a.txt"], "old"), (["uv.lock"], "lock"),
            (["src", "py_template", "m.py"], "code")],
           [["src"], ["src", "py_template"]]⟩, none⟩)).1.1
      (execEvents [Event.mutateEv ["a.txt"] "new", Event.renameEv "cool_tool",
          Event.backupEv ["uv.lock"]]
        (initRollbackState,
         ⟨⟨[(["a.txt"], "old"), (["uv.lock"], "lock"),
            (["src", "py_template", "m.py"], "code")],
           [["src"], ["src", "py_template"]]⟩, none⟩)).1.2).fs.readFile ["a.txt"]
      = some "old" ∧
    (recover_from_checkpoint
      (execEvents [Event.mutateEv ["a.txt"] "new", Event.renameEv "cool_tool",
          Event.backupEv ["uv.lock"]]
        (initRollbackState,
         ⟨⟨[(["a.txt"], "old"), (["uv.lock"], "lock"),
            (["src", "py_template", "m.py"], "code")],
           [["src"], ["src", "py_template"]]⟩, none⟩)).1.2).fs.pathExists
        ["src", "py_template"] = true := by
  refine ⟨by decide, ?_, ?_⟩
  · exact (c1_rollback_recover_roundtrip _ _ (by decide)).1.1 ["a.txt"] "old" (by decide)
  · exact (c1_rollback_recover_roundtrip _ _ (by decide)).2.1.2 ["src", "py_template"]
      ["src", "cool_tool"] (by decide)

/-- C2: On any failure during the mutation phase (with the keep flag unset),
`main` invokes `rollback_changes` on the recorded state, and
`rollback_changes` reverses the recorded directory renames newest-first,
then restores every recorded file's original content in record order, then
deletes the manifest (checkpoint slot cleared, backup directory removed). -/
theorem c2_rollback_structure :
    (∀ (state : RollbackState) (sys : Sys),
      (rollback_changes state sys).checkpoint = none ∧
      (rollback_changes state sys).fs.isDir backupDir = false) ∧
    (∀ (state : RollbackState) (sys : Sys),
      ¬(state.original_files = [] ∧ state.renamed_dirs = []) →
      rollback_changes state sys
        = cleanup_checkpoint
            ⟨state.original_files.foldl restoreStep
              (undoRenamesNewestFirst state.renamed_dirs sys.fs), sys.checkpoint⟩) ∧
    (∀ (events : List Event) (verifyOk noVerify : Bool) (sys0 : Sys),
      (execEvents events (initRollbackState, recover_from_checkpoint sys0)).2 = true →
      runMain events verifyOk noVerify false sys0
        = .failed (rollback_changes
            (execEvents events (initRollbackState, recover_from_checkpoint sys0)).1.1
            (execEvents events (initRollbackState, recover_from_checkpoint sys0)).1.2)) := by
  refine ⟨?_, ?_, ?_⟩
  · intro state sys
    constructor
    · by_cases h : state.original_files = [] ∧ state.renamed_dirs = []
      · simp only [rollback_changes, if_pos h]
        rfl
      · simp only [rollback_changes, if_neg h]
        rfl
    · by_cases h : state.original_files = [] ∧ state.renamed_dirs = []
      · simp only [rollback_changes, if_pos h]
        exact isDir_backupDir_cleanup sys
      · simp only [rollback_changes, if_neg h]
        exact isDir_backupDir_cleanup _
  · intro state sys h
    simp only [rollback_changes, if_neg h]
    have hfold : state.renamed_dirs.reverse.foldl undoRenameStep sys.fs
        = undoRenamesNewestFirst state.renamed_dirs sys.fs := by
      rw [undoRenamesNewestFirst, List.foldl_reverse]
    rw [hfold]
  · intro events verifyOk noVerify sys0 hraise
    simp only [runMain, mainBody, hraise, if_true, Bool.false_eq_true, if_false]

/-- Witness for C2: a run that raises mid-phase is rolled back, and a
nonempty rollback state decomposes into the three phases. -/
theorem c2_rollback_structure_witness :
    (¬(((⟨[(["a.txt"], "old")], [], [(["a.txt"], backupPathOf 0)]⟩ : RollbackState)).original_files
        = [] ∧
      ((⟨[(["a.txt"], "old")], [], [(["a.txt"], backupPathOf 0)]⟩ : RollbackState)).renamed_dirs
        = []) ∧
     rollback_changes ⟨[(["a.txt"], "old")], [], [(["a.txt"], backupPathOf 0)]⟩
        ⟨⟨[(["a.txt"], "new")], []⟩, none⟩
      = cleanup_checkpoint
          ⟨(([(["a.txt"], "old")] : List (FPath × String))).foldl restoreStep
            (undoRenamesNewestFirst [] (⟨[(["a.txt"], "new")], []⟩ : FS)), none⟩) ∧
    ((execEvents [Event.failEv]
        (initRollbackState, recover_from_checkpoint ⟨⟨[], []⟩, none⟩)).2 = true ∧
     runMain [Event.failEv] true false false ⟨⟨[], []⟩, none⟩
      = .failed (rollback_changes
          (execEvents [Event.failEv]
            (initRollbackState, recover_from_checkpoint ⟨⟨[], []⟩, none⟩)).1.1
          (execEvents [Event.failEv]
            (initRollbackState, recover_from_checkpoint ⟨⟨[], []⟩, none⟩)).1.2)) := by
  refine ⟨⟨by decide, ?_⟩, by decide, ?_⟩
  · exact c2_rollback_structure.2.1 _ _ (by decide)
  · exact c2_rollback_structure.2.2 [Event.failEv] true false ⟨⟨[], []⟩, none⟩ (by decide)

/-- C3: `recover_from_checkpoint` reads any pre-existing manifest, replays
its rename records newest-first, then restores the recorded files from
their backups, then deletes the manifest; when no manifest exists it is a
no-op, and `main` invokes it first, before any new mutation. -/
theorem c3_recover_structure :
    (∀ sys : Sys, (recover_from_checkpoint sys).checkpoint = none) ∧
    (∀ sys : Sys, sys.checkpoint = none → recover_from_checkpoint sys = sys) ∧
    (∀ (sys : Sys) (m : Manifest), sys.checkpoint = some m →
      recover_from_checkpoint sys
        = cleanup_checkpoint
            ⟨recoverRestorePhase (undoRenamesNewestFirst m.renames sys.fs) m.files,
             sys.checkpoint⟩) ∧
    (∀ (events : List Event) (verifyOk noVerify keep : Bool) (sys0 : Sys),
      runMain events verifyOk noVerify keep sys0
        = mainBody events verifyOk noVerify keep (recover_from_checkpoint sys0)) := by
  refine ⟨?_, ?_, ?_, ?_⟩
  · intro sys
    cases h : sys.checkpoint with
    | none => rw [recover_noop h, h]
    | some m =>
      simp only [recover_from_checkpoint, h]
      rfl
  · intro sys h
    exact recover_noop h
  · intro sys m h
    simp only [recover_from_checkpoint, h]
    have hfold : m.renames.reverse.foldl undoRenameStep sys.fs
        = undoRenamesNewestFirst m.renames sys.fs := by
      rw [undoRenamesNewestFirst, List.foldl_reverse]
    rw [hfold]
  · intro events verifyOk noVerify keep sys0
    rfl

/-- Witness for C3: recovery of a concrete one-file, one-rename manifest. -/
theorem c3_recover_structure_witness :
    ((⟨⟨[(["src", "x", "m.py"], "mut"), (backupPathOf 0, "orig")],
        [["src"], ["src", "x"], backupDir]⟩,
       some ⟨[(["src", "py_template", "m.py"], backupPathOf 0)],
             [(tplDir, ["src", "x"])]⟩⟩ : Sys).checkpoint
      = some ⟨[(["src", "py_template", "m.py"], backupPathOf 0)], [(tplDir, ["src", "x"])]⟩ ∧
    recover_from_checkpoint
        ⟨⟨[(["src", "x", "m.py"], "mut"), (backupPathOf 0, "orig")],
          [["src"], ["src", "x"], backupDir]⟩,
         some ⟨[(["src", "py_template", "m.py"], backupPathOf 0)], [(tplDir, ["src", "x"])]⟩⟩
      = cleanup_checkpoint
          ⟨recoverRestorePhase
            (undoRenamesNewestFirst [(tplDir, ["src", "x"])]
              (⟨[(["src", "x", "m.py"], "mut"), (backupPathOf 0, "orig")],
                [["src"], ["src", "x"], backupDir]⟩ : FS))
            [(["src", "py_template", "m.py"], backupPathOf 0)],
           some ⟨[(["src", "py_template", "m.py"], backupPathOf 0)],
                 [(tplDir, ["src", "x"])]⟩⟩) := by
  refine ⟨rfl, ?_⟩
  exact c3_recover_structure.2.2.1
    ⟨⟨[(["src", "x", "m.py"], "mut"), (backupPathOf 0, "orig")],
      [["src"], ["src", "x"], backupDir]⟩,
     some ⟨[(["src", "py_template", "m.py"], backupPathOf 0)], [(tplDir, ["src", "x"])]⟩⟩
    ⟨[(["src", "py_template", "m.py"], backupPathOf 0)], [(tplDir, ["src", "x"])]⟩ rfl

/-- C4: `backup_text_file` is idempotent per path (a second call on the same
path changes nothing), and along every run from the initial state the
rollback state and manifest carry exactly one backup record per distinct
path (backup keys equal original keys and are duplicate-free). -/
theorem c4_backup_idempotent :
    (∀ (p : FPath) (s : RollbackState × Sys),
      backup_text_file p (backup_text_file p s) = backup_text_file p s) ∧
    (∀ (events : List Event) (sys0 : Sys),
      (execEvents events (initRollbackState, sys0)).1.1.backup_files.map Prod.fst
        = (execEvents events (initRollbackState, sys0)).1.1.original_files.map Prod.fst ∧
      ((execEvents events (initRollbackState, sys0)).1.1.original_files.map Prod.fst).Nodup) := by
  constructor
  · intro p s
    rcases backup_cases p s with hc | ⟨c, h1n, h2, hc⟩
    · rw [hc, hc]
    · have hrec : (lookupA p (backup_text_file p s).1.original_files).isSome = true := by
        rw [hc]
        show (lookupA p (s.1.original_files ++ [(p, c)])).isSome = true
        rw [lookupA_append_left p _ _ h1n]
        simp [lookupA]
      exact backup_noop_recorded hrec
  · intro events sys0
    have hB : InvB (execEvents events (initRollbackState, sys0)).1 :=
      invB_execEvents events _ (invB_init sys0)
    exact ⟨hB.keysEq, hB.keysNd⟩

/-- C5: after every operation that adds a new record — the first backup of a
file in `backup_text_file`, and each directory rename in
`rename_package_dir` — the checkpoint file is rewritten to hold the payload
of the full current rollback state. -/
theorem c5_checkpoint_flushed_after_record :
    (∀ (p : FPath) (c : String) (state : RollbackState) (sys : Sys),
      lookupA p state.original_files = none → sys.fs.readFile p = some c →
      (backup_text_file p (state, sys)).2.checkpoint
        = some (checkpoint_payload (backup_text_file p (state, sys)).1)) ∧
    (∀ (n : String) (state : RollbackState) (sys : Sys),
      sys.fs.pathExists tplDir = true → n ≠ "py_template" →
      sys.fs.pathExists ["src", n] = false →
      ∃ st2 sys2, rename_package_dir n (state, sys) = .ok (st2, sys2) ∧
        st2.renamed_dirs = state.renamed_dirs ++ [(tplDir, ["src", n])] ∧
        sys2.checkpoint = some (checkpoint_payload st2)) := by
  constructor
  · intro p c state sys h1 h2
    rw [backup_eq_of_new h1 h2]
  · intro n state sys h1 h2 h3
    exact ⟨_, _, rename_ok_eq h1 h2 h3, rfl, rfl⟩

/-- Witness for C5: first backup of a concrete file flushes the manifest. -/
theorem c5_checkpoint_flushed_after_record_witness :
    lookupA ["a.txt"] initRollbackState.original_files = none ∧
    (⟨⟨[(["a.txt"], "old")], []⟩, none⟩ : Sys).fs.readFile ["a.txt"] = some "old" ∧
    (backup_text_file ["a.txt"]
        (initRollbackState, ⟨⟨[(["a.txt"], "old")], []⟩, none⟩)).2.checkpoint
      = some (checkpoint_payload
          (backup_text_file ["a.txt"]
            (initRollbackState, ⟨⟨[(["a.txt"], "old")], []⟩, none⟩)).1) := by
  refine ⟨by decide, by decide, ?_⟩
  exact c5_checkpoint_flushed_after_record.1 ["a.txt"] "old" initRollbackState
    ⟨⟨[(["a.txt"], "old")], []⟩, none⟩ (by decide) (by decide)

/-- C6: when the verification step fails (and nothing raised earlier),
`main` rolls back — restoring every recorded file and reversing the
directory rename — unless `--keep-changes-on-failure` is set, in which case
`rollback_changes` is not invoked (only the checkpoint artifacts are
removed; no file content outside the backup directory changes) and the
failure still propagates. -/
theorem c6_verify_failure_rollback_or_keep (events : List Event) (sys0 : Sys)
    (hwf : eventsWF events = true)
    (hnoraise :
      (execEvents events (initRollbackState, recover_from_checkpoint sys0)).2 = false) :
    (fun s2 : RollbackState × Sys =>
      (runMain events false false false sys0 = .failed (rollback_changes s2.1 s2.2)) ∧
      (runMain events false false true sys0 = .failed (cleanup_checkpoint s2.2)) ∧
      (∀ p c, (p, c) ∈ s2.1.original_files →
        (rollback_changes s2.1 s2.2).fs.readFile p = some c) ∧
      (∀ o nw, (o, nw) ∈ s2.1.renamed_dirs →
        (rollback_changes s2.1 s2.2).fs.pathExists o = true) ∧
      (∀ p, isPre backupDir p = false →
        (cleanup_checkpoint s2.2).fs.readFile p = s2.2.fs.readFile p))
      (backup_text_file uvLockPath
        (execEvents events (initRollbackState, recover_from_checkpoint sys0)).1) := by
  have hB1 : InvB (execEvents events (initRollbackState, recover_from_checkpoint sys0)).1 :=
    invB_execEvents events _ (invB_init (recover_from_checkpoint sys0))
  have hC1 : InvC (execEvents events (initRollbackState, recover_from_checkpoint sys0)).1 :=
    invC_execEvents events _ hwf (invC_init (recover_from_checkpoint sys0))
  have hB2 := invB_backup uvLockPath _ hB1
  have hC2 := invC_backup uvLockPath _ (by decide) hC1
  refine ⟨?_, ?_, ?_, ?_, ?_⟩
  · simp only [runMain, mainBody, hnoraise, Bool.false_eq_true, if_false]
  · simp only [runMain, mainBody, hnoraise, Bool.false_eq_true, if_false, if_true]
  · intro p c hmem
    exact rollback_restores_file _ _ hB2.keysNd hmem (hC2.keysSep (p, c) hmem)
  · intro o nw hmem
    exact rollback_restores_dir _ _ hB2.ren hmem
  · intro p hp
    exact readFile_cleanup _ hp

/-- Witness for C6 on a concrete run: both the rollback and the
keep-changes outcomes of a verification failure. -/
theorem c6_verify_failure_rollback_or_keep_witness :
    eventsWF [Event.mutateEv ["a.txt"] "new"] = true ∧
    (execEvents [Event.mutateEv ["a.txt"] "new"]
      (initRollbackState,
       recover_from_checkpoint ⟨⟨[(["a.txt"], "old")], []⟩, none⟩)).2 = false ∧
    runMain [Event.mutateEv ["a.txt"] "new"] false false false
        ⟨⟨[(["a.txt"], "old")], []⟩, none⟩
      = .failed (rollback_changes
          (backup_text_file uvLockPath
            (execEvents [Event.mutateEv ["a.txt"] "new"]
              (initRollbackState,
               recover_from_checkpoint ⟨⟨[(["a.txt"], "old")], []⟩, none⟩)).1).1
          (backup_text_file uvLockPath
            (execEvents [Event.mutateEv ["a.txt"] "new"]
              (initRollbackState,
               recover_from_checkpoint ⟨⟨[(["a.txt"], "old")], []⟩, none⟩)).1).2) := by
  refine ⟨by decide, by decide, ?_⟩
  exact (c6_verify_failure_rollback_or_keep [Event.mutateEv ["a.txt"] "new"]
    ⟨⟨[(["a.txt"], "old")], []⟩, none⟩ (by decide) (by decide)).1

/-- C7: during recovery, an entry whose backup file is missing is skipped
and restoration continues identically across the remaining entries (and the
loop simply advances entry by entry; nothing is retried). -/
theorem c7_recovery_tolerates_missing_backup :
    (∀ (entry : FPath × FPath) (rest : List (FPath × FPath)) (fs : FS),
      recoverRestorePhase fs (entry :: rest)
        = recoverRestorePhase (recoverRestoreStep fs entry) rest) ∧
    (∀ (p b : FPath) (rest : List (FPath × FPath)) (fs : FS),
      fs.readFile b = none →
      recoverRestorePhase fs ((p, b) :: rest) = recoverRestorePhase fs rest) := by
  constructor
  · intro entry rest fs
    rfl
  · intro p b rest fs h
    show recoverRestorePhase (recoverRestoreStep fs (p, b)) rest = recoverRestorePhase fs rest
    have hstep : recoverRestoreStep fs (p, b) = fs := by
      simp [recoverRestoreStep, h]
    rw [hstep]

/-- Witness for C7: a two-entry manifest whose first backup is missing
restores exactly the remaining entry. -/
theorem c7_recovery_tolerates_missing_backup_witness :
    (⟨[(backupPathOf 1, "o2")], []⟩ : FS).readFile (backupPathOf 0) = none ∧
    recoverRestorePhase ⟨[(backupPathOf 1, "o2")], []⟩
        [(["a.txt"], backupPathOf 0), (["b.txt"], backupPathOf 1)]
      = recoverRestorePhase ⟨[(backupPathOf 1, "o2")], []⟩ [(["b.txt"], backupPathOf 1)] := by
  refine ⟨by decide, ?_⟩
  exact c7_recovery_tolerates_missing_backup.2 ["a.txt"] (backupPathOf 0)
    [(["b.txt"], backupPathOf 1)] ⟨[(backupPathOf 1, "o2")], []⟩ (by decide)

/-- C8: in a non-interactive invocation where no distribution name is given
on the command line and none can be inferred from the git origin's
repository name or the project metadata (`[project] name` absent, equal to
the template placeholder, or empty), `collect_values` fails with a
descriptive error instead of proceeding with an empty name. -/
theorem c8_noninteractive_missing_name (env : CVEnv) (args : ArgsM)
    (hni : env.interactive = false)
    (hpkg : args.package_name = none ∨ args.package_name = some "")
    (horig : ∀ o, env.origin = some o → (o.repo_name = none ∨ o.repo_name = some ""))
    (hmeta : lookupA "name" env.defaults = none ∨
      lookupA "name" env.defaults = some TEMPLATE_DIST_NAME ∨
      lookupA "name" env.defaults = some "") :
    collect_values env args
      = .error "Could not infer distribution name. Pass package_name or set git origin remote." := by
  have h1 : ∀ b, pyOrO args.package_name b = b := by
    rcases hpkg with h | h <;> intro b <;> simp [h, pyOrO, pyOr]
  have h2 : ∀ b, pyOrO (originRepoName env.origin) b = b := by
    intro b
    cases ho : env.origin with
    | none => rfl
    | some o =>
      rcases horig o ho with h | h <;> simp [originRepoName, h, pyOrO, pyOr]
  have h3 : (if (lookupA "name" env.defaults).getD TEMPLATE_DIST_NAME = TEMPLATE_DIST_NAME
      then "" else (lookupA "name" env.defaults).getD TEMPLATE_DIST_NAME) = "" := by
    rcases hmeta with h | h | h <;> rw [h] <;> simp [TEMPLATE_DIST_NAME]
  simp only [collect_values, h1, h2, h3, hni, Bool.false_eq_true, if_false]
  simp

/-- Witness for C8: empty environment, no arguments. -/
theorem c8_noninteractive_missing_name_witness :
    (⟨[], none, none, none, false, []⟩ : CVEnv).interactive = false ∧
    collect_values ⟨[], none, none, none, false, []⟩
        ⟨none, none, none, none, none, none, none, none⟩
      = .error "Could not infer distribution name. Pass package_name or set git origin remote." := by
  refine ⟨rfl, ?_⟩
  exact c8_noninteractive_missing_name ⟨[], none, none, none, false, []⟩
    ⟨none, none, none, none, none, none, none, none⟩ rfl (Or.inl rfl)
    (fun o ho => by simp at ho) (Or.inl rfl)

/-- C9: `dist_to_import_name` replaces every `-` and `.` with `_` (character
by character), so the distribution name `cool-tool` with no explicit import
name yields the import name `cool_tool`, also through `collect_values`. -/
theorem c9_dist_to_import_name :
    dist_to_import_name "cool-tool" = "cool_tool" ∧
    (∀ s : String, (dist_to_import_name s).data
      = s.data.map (fun c => if c = '-' ∨ c = '.' then '_' else c)) ∧
    (collect_values ⟨[], none, none, none, false, []⟩
        ⟨some "cool-tool", none, none, none, none, none, none, none⟩).map
      (fun v => v.import_name) = Except.ok "cool_tool" := by
  refine ⟨by decide, fun s => rfl, by rfl⟩

/-- C10: `rename_package_dir` raises a `RuntimeError` when the target
package directory already exists while the template directory also exists
and differs from it — and then nothing is renamed and nothing is added to
the rollback state or manifest (the raising call leaves the run state
untouched); when the template directory is absent or equals the target, the
call is a no-op. -/
theorem c10_rename_target_exists (n : String) (state : RollbackState) (sys : Sys) :
    (sys.fs.pathExists tplDir = true → n ≠ "py_template" →
      sys.fs.pathExists ["src", n] = true →
      rename_package_dir n (state, sys)
        = .error ("Target package path already exists: src/" ++ n) ∧
      execEvent (.renameEv n) (state, sys) = ((state, sys), true)) ∧
    (sys.fs.pathExists tplDir = false →
      rename_package_dir n (state, sys) = .ok (state, sys)) ∧
    rename_package_dir "py_template" (state, sys) = .ok (state, sys) := by
  refine ⟨?_, ?_, rename_noop_same⟩
  · intro h1 h2 h3
    have he := @rename_err_eq n (state, sys) h1 h2 h3
    refine ⟨he, ?_⟩
    simp only [execEvent, he]
  · intro h1
    exact rename_noop_gone h1

/-- Witness for C10: with both `src/py_template` and the target `src/cool`
present, the rename raises and the run state is untouched; with the
template directory absent, the call is a no-op. -/
theorem c10_rename_target_exists_witness :
    ((⟨⟨[], [["src"], ["src", "py_template"], ["src", "cool"]]⟩, none⟩ : Sys)).fs.pathExists
        tplDir = true ∧
    rename_package_dir "cool"
        (initRollbackState, ⟨⟨[], [["src"], ["src", "py_template"], ["src", "cool"]]⟩, none⟩)
      = .error "Target package path already exists: src/cool" ∧
    execEvent (.renameEv "cool")
        (initRollbackState, ⟨⟨[], [["src"], ["src", "py_template"], ["src", "cool"]]⟩, none⟩)
      = ((initRollbackState,
          ⟨⟨[], [["src"], ["src", "py_template"], ["src", "cool"]]⟩, none⟩), true) ∧
    rename_package_dir "cool" (initRollbackState, ⟨⟨[], [["src"]]⟩, none⟩)
      = .ok (initRollbackState, ⟨⟨[], [["src"]]⟩, none⟩) := by
  have h := c10_rename_target_exists "cool" initRollbackState
    ⟨⟨[], [["src"], ["src", "py_template"], ["src", "cool"]]⟩, none⟩
  have h1 := h.1 (by decide) (by decide) (by decide)
  refine ⟨by decide, h1.1, h1.2, ?_⟩
  exact (c10_rename_target_exists "cool" initRollbackState ⟨⟨[], [["src"]]⟩, none⟩).2.1 (by decide)
